import Mathlib

/-!
Verification of the neocache cache engine (src/neocache.ts, the current
two-generation implementation: `Neocache.get`/`set`/`invalidate`/`size`/
`purgeExpired`).

The engine state is embedded shallowly: a JavaScript `Map` is modelled as an
insertion-ordered association list (`JsMap`), wall-clock time (`Date.now()`)
is passed explicitly as a `Nat` argument to every operation, and the optional
asynchronous producer passed to `get` is modelled by a `Producer` value that
either is absent, yields a value, or throws an error that `get` propagates.

Number model: all times and TTLs are `Nat`.  The constructor merges
user-supplied options over the library defaults
(`defaultExpireTimeMs: 3600000, purgeIntervalMs: 60000`) by object spread;
an omitted field keeps the default, so after merging `defaultExpireTimeMs`
and `purgeIntervalMs` are plain numbers (possibly `0`, which is falsy in the
source's `!x` / `x || y` tests) and `maxSize` is an optional number.
-/

namespace Neocache

/-- One entry of a JavaScript `Map`, in insertion order. -/
abbrev JsMap (κ : Type) (α : Type) := List (κ × α)

/-- `Map.prototype.get`: the value stored under `k`, if any. -/
def jsGet {κ α : Type} [DecidableEq κ] : JsMap κ α → κ → Option α
  | [], _ => none
  | (k', v) :: m, k => if k' = k then some v else jsGet m k

/-- `Map.prototype.has`. -/
def jsHas {κ α : Type} [DecidableEq κ] (m : JsMap κ α) (k : κ) : Bool :=
  (jsGet m k).isSome

/-- `Map.prototype.delete`: removes the entry stored under `k`, if any (a
well-formed map holds each key at most once, so removing every occurrence
coincides with removing the entry). -/
def jsDelete {κ α : Type} [DecidableEq κ] : JsMap κ α → κ → JsMap κ α
  | [], _ => []
  | (k', v) :: m, k => if k' = k then jsDelete m k else (k', v) :: jsDelete m k

/-- `Map.prototype.set`: updates the entry in place when the key is present
(JavaScript keeps the original insertion position), appends otherwise. -/
def jsSet {κ α : Type} [DecidableEq κ] : JsMap κ α → κ → α → JsMap κ α
  | [], k, v => [(k, v)]
  | (k', w) :: m, k, v => if k' = k then (k, v) :: m else (k', w) :: jsSet m k v

/-- `Map.prototype.size`. -/
def jsSize {κ α : Type} (m : JsMap κ α) : Nat := m.length

/-- A stored cache entry: `{ data, expireTime }` from src/neocache.ts.  The
payload is opaque to the engine; it is modelled by a `Nat`. -/
structure CacheItem where
  data : Nat
  expireTime : Nat
deriving DecidableEq, Repr

/-- The engine's option record after the constructor has merged the caller's
options over the library defaults. -/
structure CacheOptions where
  defaultExpireTimeMs : Nat
  purgeIntervalMs : Nat
  maxSize : Option Nat
deriving DecidableEq, Repr

/-- Constructor-time options as supplied by the caller: each field may be
omitted. -/
structure UserOptions where
  defaultExpireTimeMs : Option Nat := none
  purgeIntervalMs : Option Nat := none
  maxSize : Option Nat := none
deriving DecidableEq, Repr

/-- `this.options = { defaultExpireTimeMs: 3600000, purgeIntervalMs: 60000,
...options }`: object-spread merge of the caller's options over the library
defaults. -/
def mergeOptions (u : UserOptions) : CacheOptions :=
  { defaultExpireTimeMs := u.defaultExpireTimeMs.getD 3600000
    purgeIntervalMs := u.purgeIntervalMs.getD 60000
    maxSize := u.maxSize }

/-- Full engine state: the two generation maps, the time-bucket index and the
purge-timer flag. -/
structure NeocacheState where
  options : CacheOptions
  cache : JsMap String CacheItem
  oldCache : JsMap String CacheItem
  timeToKeyBucket : JsMap Nat (List String)
  purgeTimerSet : Bool
deriving DecidableEq, Repr

/-- `new Neocache(options)`. -/
def init (u : UserOptions) : NeocacheState :=
  { options := mergeOptions u, cache := [], oldCache := [], timeToKeyBucket := [],
    purgeTimerSet := false }

/-- JavaScript truthiness of `this.options.maxSize` (`undefined` and `0` are
falsy). -/
def maxSizeTruthy (o : Option Nat) : Bool :=
  match o with
  | some m => m ≠ 0
  | none => false

/-- `options?.expireTimeMs || this.options.defaultExpireTimeMs` — JavaScript
`||` falls through on `undefined` and `0`. -/
def jsOrDefault (o : Option Nat) (d : Nat) : Nat :=
  match o with
  | some n => if n = 0 then d else n
  | none => d

/-- `Neocache.set` (src/neocache.ts): delete from the previous generation,
delete-or-rotate in the current one, insert the fresh entry, and register its
expiration bucket when the purge interval is truthy. -/
def set (s : NeocacheState) (now : Nat) (id : String) (data : Nat)
    (optExpire : Option Nat) : NeocacheState :=
  if id = "" then s
  else
    let old1 := jsDelete s.oldCache id
    let cacheOld :=
      if jsHas s.cache id then (jsDelete s.cache id, old1)
      else if maxSizeTruthy s.options.maxSize ∧
              s.options.maxSize.getD 0 ≤ jsSize s.cache then
        (([] : JsMap String CacheItem), s.cache)
      else (s.cache, old1)
    let expireTime := now + jsOrDefault optExpire s.options.defaultExpireTimeMs
    let cache2 := jsSet cacheOld.1 id ⟨data, expireTime⟩
    if s.options.purgeIntervalMs = 0 then
      { s with cache := cache2, oldCache := cacheOld.2 }
    else
      let timeKey := expireTime / s.options.purgeIntervalMs + 1
      let ks := (jsGet s.timeToKeyBucket timeKey).getD []
      { s with cache := cache2, oldCache := cacheOld.2,
               timeToKeyBucket := jsSet s.timeToKeyBucket timeKey (ks ++ [id]),
               purgeTimerSet := true }

/-- The optional `fetchFunc` passed to `get`: absent, or a function whose
invocation yields `v`, or a function whose invocation throws `e`. -/
inductive Producer where
  | noFunc
  | ok (v : Nat)
  | fail (e : Nat)
deriving DecidableEq, Repr

/-- Result of a `get` call: the produced/cached value, `null`, or a
propagated producer error. -/
abbrev GetResult := Except Nat (Option Nat)

/-- The tail of `Neocache.get` after both generation lookups missed:
`if (!fetchFunc) return null; const data = await fetchFunc(); this.set(...)`. -/
def getFetch (s : NeocacheState) (now : Nat) (id : String) (p : Producer)
    (optExpire : Option Nat) : GetResult × NeocacheState :=
  match p with
  | .noFunc => (.ok none, s)
  | .fail e => (.error e, s)
  | .ok v => (.ok (some v), set s now id v optExpire)

/-- The branch of `Neocache.get` that consults the previous generation:
promote on a live hit (delete from `oldCache`, insert into `cache`),
otherwise fall through to the producer. -/
def getOld (s : NeocacheState) (now : Nat) (id : String) (p : Producer)
    (optExpire : Option Nat) : GetResult × NeocacheState :=
  match jsGet s.oldCache id with
  | some item =>
    if now < item.expireTime then
      (.ok (some item.data),
        { s with oldCache := jsDelete s.oldCache id, cache := jsSet s.cache id item })
    else getFetch s now id p optExpire
  | none => getFetch s now id p optExpire

/-- `Neocache.get` (src/neocache.ts): empty-id guard, live hit in the current
generation (refreshing LRU order by delete + re-insert), live hit in the
previous generation (promotion), else the producer path. -/
def get (s : NeocacheState) (now : Nat) (id : String) (p : Producer)
    (optExpire : Option Nat) : GetResult × NeocacheState :=
  if id = "" then (.ok none, s)
  else
    match jsGet s.cache id with
    | some item =>
      if now < item.expireTime then
        (.ok (some item.data),
          { s with cache := jsSet (jsDelete s.cache id) id item })
      else getOld s now id p optExpire
    | none => getOld s now id p optExpire

/-- `Neocache.invalidate`: remove the key from both generations. -/
def invalidate (s : NeocacheState) (id : String) : NeocacheState :=
  { s with cache := jsDelete s.cache id, oldCache := jsDelete s.oldCache id }

/-- The `size` getter: `oldCache.size` when `cache` is empty, otherwise
`oldCache.size` plus the keys of `cache` not present in `oldCache`, capped at
`maxSize` (the cap uses `??`, so only an absent `maxSize` disables it). -/
def size (s : NeocacheState) : Nat :=
  if jsSize s.cache = 0 then jsSize s.oldCache
  else
    let n := jsSize s.oldCache +
      (s.cache.filter (fun p => ¬ jsHas s.oldCache p.1)).length
    match s.options.maxSize with
    | some m => min n m
    | none => n

/-- The body of `purgeExpired`'s loop over the bucket's key list:
`const item = this.cache.get(key); if (item && item.expireTime < now)
this.invalidate(key);` — note it consults the *current* generation only. -/
def purgeStep (now : Nat) (acc : NeocacheState) (k : String) : NeocacheState :=
  match jsGet acc.cache k with
  | some item => if item.expireTime < now then invalidate acc k else acc
  | none => acc

/-- `Neocache.purgeExpired`: fetch the key list of bucket
`floor(now / purgeIntervalMs)`, run `purgeStep` over it, then drop the
bucket.  (When `purgeIntervalMs` is `0` the source computes bucket
`Infinity`, which never holds a list; here `now / 0 = 0`, and bucket `0` is
likewise never created, since registered bucket keys are always `≥ 1`.) -/
def purgeExpired (s : NeocacheState) (now : Nat) : NeocacheState :=
  let timeKey := now / s.options.purgeIntervalMs
  let keys := (jsGet s.timeToKeyBucket timeKey).getD []
  let s1 := keys.foldl (purgeStep now) s
  { s1 with timeToKeyBucket := jsDelete s1.timeToKeyBucket timeKey }

/-- One externally observable engine step: a `get` or `set` or `invalidate`
call, or one firing of the background purge timer. -/
inductive Step where
  | get (now : Nat) (id : String) (p : Producer) (o : Option Nat)
  | set (now : Nat) (id : String) (v : Nat) (o : Option Nat)
  | invalidate (id : String)
  | purge (now : Nat)
deriving DecidableEq, Repr

/-- The state after one step (a producer that throws leaves the state as it
was at the throw, i.e. unchanged). -/
def applyStep (s : NeocacheState) : Step → NeocacheState
  | .get now id p o => (get s now id p o).2
  | .set now id v o => set s now id v o
  | .invalidate id => invalidate s id
  | .purge now => purgeExpired s now

/-- Run a sequence of steps. -/
def runTrace (s : NeocacheState) (tr : List Step) : NeocacheState :=
  tr.foldl applyStep s

/-- States reachable from a freshly constructed engine by any sequence of
`get` / `set` / `invalidate` calls and purge-timer firings. -/
inductive Reachable : NeocacheState → Prop where
  | init (u : UserOptions) : Reachable (init u)
  | step (s : NeocacheState) (st : Step) : Reachable s → Reachable (applyStep s st)

/-- The entry stored for a key, looking in the current generation first and
the previous one second (the order `get` consults them). -/
def storedEntry (s : NeocacheState) (id : String) : Option CacheItem :=
  match jsGet s.cache id with
  | some e => some e
  | none => jsGet s.oldCache id

/-- The value the previous-generation branch of `get` would serve for `id`
at time `now` (`none` when absent or expired). -/
def liveOldData (s : NeocacheState) (now : Nat) (id : String) : Option Nat :=
  match jsGet s.oldCache id with
  | some it => if now < it.expireTime then some it.data else none
  | none => none

/-- The value `get` would serve for `id` at time `now` without invoking a
producer: current generation first, previous generation second, `none` on
absence or expiry.  Mirrors the read path of `Neocache.get`. -/
def liveData (s : NeocacheState) (now : Nat) (id : String) : Option Nat :=
  match jsGet s.cache id with
  | some it => if now < it.expireTime then some it.data else liveOldData s now id
  | none => liveOldData s now id

/-- Whether the current generation holds a live (unexpired) entry for `id`
at time `now` — the condition of `get`'s first branch. -/
def cacheLive (s : NeocacheState) (now : Nat) (id : String) : Bool :=
  match jsGet s.cache id with
  | some it => decide (now < it.expireTime)
  | none => false

/-- The entry `set` stores: `{ data, expireTime: Date.now() + expireTimeMs }`. -/
def mkEntry (s : NeocacheState) (now : Nat) (o : Option Nat) (v : Nat) : CacheItem :=
  ⟨v, now + jsOrDefault o s.options.defaultExpireTimeMs⟩

/-- No key is present in both generation maps at once. -/
def GenDisjoint (s : NeocacheState) : Prop :=
  ∀ k, jsGet s.cache k = none ∨ jsGet s.oldCache k = none

/-- The empty string is never stored (both `get` and `set` refuse it). -/
def NoEmptyKey (s : NeocacheState) : Prop :=
  jsGet s.cache "" = none ∧ jsGet s.oldCache "" = none

/-- The engine invariants used by the claims. -/
def Inv (s : NeocacheState) : Prop :=
  GenDisjoint s ∧ NoEmptyKey s

/-- Whether `purgeExpired` running at `now` would find key `k` eligible:
present in the current generation with `expireTime < now`. -/
def expiredInCache (s : NeocacheState) (now : Nat) (k : String) : Bool :=
  match jsGet s.cache k with
  | some e => decide (e.expireTime < now)
  | none => false

/-- Is this step a purge-timer firing? -/
def isPurge : Step → Bool
  | .purge _ => true
  | _ => false

/-- The wall-clock instant a step observes, if any. -/
def stepTime : Step → Option Nat
  | .get now _ _ _ => some now
  | .set now _ _ _ => some now
  | .invalidate _ => none
  | .purge now => some now

/-- Time monotonicity of a trace starting from watermark `t`. -/
def monoFrom : Nat → List Step → Bool
  | _, [] => true
  | t, st :: tr =>
    match stepTime st with
    | some n => decide (t ≤ n) && monoFrom n tr
    | none => monoFrom t tr

/-- Run a trace and collect the result of every `get` call in order. -/
def runOut (s : NeocacheState) : List Step → NeocacheState × List GetResult
  | [] => (s, [])
  | .get now id p o :: tr =>
    let r := get s now id p o
    let rest := runOut r.2 tr
    (rest.1, r.1 :: rest.2)
  | st :: tr => runOut (applyStep s st) tr

/-- Pointwise relation between the generation map of a purging engine (`mP`)
and that of a non-purging one (`mQ`): equal entries, except that `mP` may
lack entries of `mQ` that were already expired at watermark `t`. -/
def MapRel (t : Nat) (mP mQ : JsMap String CacheItem) : Prop :=
  ∀ k, jsGet mP k = jsGet mQ k ∨
    (jsGet mP k = none ∧ ∃ e, jsGet mQ k = some e ∧ e.expireTime < t)

/-- Simulation relation for the purge-noninterference theorem: `sP` is the
engine with the purge timer running, `sQ` the one without; both have the
same default TTL and no (truthy) `maxSize`, and `sP`'s generation maps may
only be missing entries of `sQ`'s that were expired at watermark `t`. -/
def Rel (t : Nat) (sP sQ : NeocacheState) : Prop :=
  sP.options.defaultExpireTimeMs = sQ.options.defaultExpireTimeMs ∧
  maxSizeTruthy sP.options.maxSize = false ∧
  maxSizeTruthy sQ.options.maxSize = false ∧
  MapRel t sP.cache sQ.cache ∧
  MapRel t sP.oldCache sQ.oldCache ∧
  GenDisjoint sP ∧ GenDisjoint sQ

/-- Whether applying this step to state `s` performs a generation rotation
(`oldCache = cache; cache = new Map()`).  Only `set` — called directly or
from the producer path of `get` — rotates, and only when inserting a new key
while `cache.size >= maxSize`. -/
def stepRotates (s : NeocacheState) : Step → Bool
  | .set _ id _ _ =>
    id ≠ "" && !(jsHas s.cache id) && maxSizeTruthy s.options.maxSize &&
      decide (s.options.maxSize.getD 0 ≤ jsSize s.cache)
  | .get now id p _ =>
    (match p with | .ok _ => true | _ => false) &&
      (id ≠ "" && (liveData s now id).isNone && !(jsHas s.cache id) &&
        maxSizeTruthy s.options.maxSize &&
        decide (s.options.maxSize.getD 0 ≤ jsSize s.cache))
  | .invalidate _ => false
  | .purge _ => false

/-- Residency of a tracked key `k` with fixed entry `e`: when `hot` it sits
in the current generation; otherwise in exactly one of the two. -/
def keyState (s : NeocacheState) (k : String) (e : CacheItem) (hot : Bool) : Prop :=
  if hot then jsGet s.cache k = some e ∧ jsGet s.oldCache k = none
  else (jsGet s.cache k = some e ∧ jsGet s.oldCache k = none) ∨
    (jsGet s.cache k = none ∧ jsGet s.oldCache k = some e)

/-- Side conditions on one step of a trace along which the tracked key `k`
(entry `e`) must survive: the key is never invalidated or re-set, every
observed instant lies before `e`'s expiry, and a rotation may only fire
while the key is `hot` (accessed since the previous rotation). -/
def stepOKForKey (k : String) (e : CacheItem) (s : NeocacheState) (hot : Bool) :
    Step → Bool
  | .invalidate id => id ≠ k
  | .set now id _ _ =>
    id ≠ k && decide (now < e.expireTime) &&
      (!(stepRotates s (.set now id 0 none)) || hot)
  | .get now id p o =>
    decide (now < e.expireTime) && (!(stepRotates s (.get now id p o)) || hot)
  | .purge now => decide (now < e.expireTime)

/-- The `hot` flag after a step: a `get` of the tracked key makes it hot, a
rotation makes it cold, anything else leaves it. -/
def nextHot (k : String) (s : NeocacheState) (hot : Bool) : Step → Bool
  | .get now id p o =>
    if id = k then true else if stepRotates s (.get now id p o) then false else hot
  | st => if stepRotates s st then false else hot

/-- A whole trace is safe for the tracked key `k` (entry `e`). -/
def keySafe (k : String) (e : CacheItem) : NeocacheState → Bool → List Step → Bool
  | _, _, [] => true
  | s, hot, st :: tr =>
    stepOKForKey k e s hot st && keySafe k e (applyStep s st) (nextHot k s hot st) tr

/-- Example configuration without purging: `maxSize = 2`, purge disabled. -/
def exOpts2 : UserOptions := { purgeIntervalMs := some 0, maxSize := some 2 }

/-- With `maxSize = 2`: fill two keys, rotate on a third, promote both old
keys back, then insert a fourth (`get`s are hits of unexpired keys). -/
def exTrace2 : List Step :=
  [.set 0 "a" 1 none, .set 0 "b" 2 none, .set 0 "c" 3 none,
   .get 1 "a" .noFunc none, .get 1 "b" .noFunc none, .set 2 "d" 4 none]

/-- The state reached by `exTrace2`. -/
def exState2 : NeocacheState := runTrace (init exOpts2) exTrace2

/-- Example configuration for the hot-key claim: `maxSize = 3`. -/
def exOpts4 : UserOptions := { purgeIntervalMs := some 0, maxSize := some 3 }

/-- Fill three keys, the tracked one `"T"` last. -/
def exState4a : NeocacheState :=
  runTrace (init exOpts4) [.set 0 "a" 1 none, .set 0 "b" 2 none, .set 0 "T" 7 none]

/-- Access `"T"` (a hit), then two distinct-key insertions with promotions of
other keys in between. -/
def exState4b : NeocacheState :=
  runTrace (get exState4a 0 "T" .noFunc none).2
    [.set 0 "c" 3 none, .get 0 "a" .noFunc none, .get 0 "b" .noFunc none,
     .set 0 "d" 4 none]

/-- Purging world for the purge-noninterference counterexample:
`maxSize = 2`, purge every 10ms. -/
def exOptsP5 : UserOptions :=
  { defaultExpireTimeMs := some 1000000, purgeIntervalMs := some 10, maxSize := some 2 }

/-- Non-purging world: identical but with the purge interval unset (falsy). -/
def exOptsQ5 : UserOptions :=
  { defaultExpireTimeMs := some 1000000, purgeIntervalMs := some 0, maxSize := some 2 }

/-- The call sequence of the purge-noninterference counterexample, including
the purge-timer firing at `t = 20` (present only in the purging world). -/
def exTraceP5 : List Step :=
  [.set 0 "a" 1 (some 10), .set 0 "b" 2 none, .purge 20,
   .set 20 "c" 3 none, .set 21 "d" 4 none, .set 22 "e" 5 none,
   .get 23 "b" .noFunc none]

/-- The same user-visible call sequence without the purge firing. -/
def exTraceQ5 : List Step := exTraceP5.filter (fun st => !(isPurge st))

/-- Engine configured with `defaultExpireTimeMs: 0` and no purging. -/
def exState7 : NeocacheState :=
  applyStep (init { defaultExpireTimeMs := some 0, purgeIntervalMs := some 0 })
    (.set 3 "k" 9 none)

/-- Setup for the purge counterexample: `maxSize = 1`, purge every 10ms; key
`"a"` (TTL 5, bucket 1) is rotated into the previous generation by the
insertion of `"b"`. -/
def exOpts8 : UserOptions :=
  { defaultExpireTimeMs := some 1000000, purgeIntervalMs := some 10, maxSize := some 1 }

/-- The state reached by those two insertions. -/
def exState8 : NeocacheState :=
  runTrace (init exOpts8) [.set 0 "a" 1 (some 5), .set 1 "b" 2 none]

/-- A one-`set` state used by several witnesses. -/
def exState1 : NeocacheState :=
  applyStep (init { purgeIntervalMs := some 0 }) (.set 0 "a" 5 none)

/-- Witness trace for the amended hot-key claim: a rotation (insertion of
`"c"` while the tracked key is hot), a re-access of `"T"`, a non-rotating
insertion, and another access. -/
def exTrW4 : List Step :=
  [.set 1 "c" 3 none, .get 2 "T" .noFunc none, .set 3 "d" 4 none,
   .get 4 "T" .noFunc none]

/-- Options without `maxSize` for the purge-noninterference witness. -/
def exOptsW5 : UserOptions := { purgeIntervalMs := some 10 }

/-- A short time-monotone trace containing a purge firing. -/
def exTraceW5 : List Step :=
  [.set 0 "a" 1 (some 10), .purge 20, .get 30 "a" .noFunc none]

theorem jsGet_delete_self {κ α : Type} [DecidableEq κ] (m : JsMap κ α) (k : κ) :
    jsGet (jsDelete m k) k = none := by
  induction m with
  | nil => rfl
  | cons p m ih =>
    obtain ⟨k', v⟩ := p
    by_cases h : k' = k <;> simp [jsDelete, jsGet, h, ih]

theorem jsGet_delete_other {κ α : Type} [DecidableEq κ] (m : JsMap κ α) (k k' : κ)
    (h : k' ≠ k) : jsGet (jsDelete m k) k' = jsGet m k' := by
  induction m with
  | nil => rfl
  | cons p m ih =>
    obtain ⟨a, v⟩ := p
    show jsGet (if a = k then jsDelete m k else (a, v) :: jsDelete m k) k' =
      if a = k' then some v else jsGet m k'
    by_cases ha : a = k
    · rw [if_pos ha, if_neg (fun (hc : a = k') => h (hc ▸ ha))]
      exact ih
    · rw [if_neg ha]
      show (if a = k' then some v else jsGet (jsDelete m k) k') =
        if a = k' then some v else jsGet m k'
      by_cases ha' : a = k'
      · rw [if_pos ha', if_pos ha']
      · rw [if_neg ha', if_neg ha']
        exact ih

theorem jsGet_set_self {κ α : Type} [DecidableEq κ] (m : JsMap κ α) (k : κ) (v : α) :
    jsGet (jsSet m k v) k = some v := by
  induction m with
  | nil => show (if k = k then some v else none) = some v; rw [if_pos rfl]
  | cons p m ih =>
    obtain ⟨a, w⟩ := p
    show jsGet (if a = k then (k, v) :: m else (a, w) :: jsSet m k v) k = some v
    by_cases ha : a = k
    · rw [if_pos ha]
      show (if k = k then some v else jsGet m k) = some v
      rw [if_pos rfl]
    · rw [if_neg ha]
      show (if a = k then some w else jsGet (jsSet m k v) k) = some v
      rw [if_neg ha]
      exact ih

theorem jsGet_set_other {κ α : Type} [DecidableEq κ] (m : JsMap κ α) (k k' : κ) (v : α)
    (h : k' ≠ k) : jsGet (jsSet m k v) k' = jsGet m k' := by
  induction m with
  | nil =>
    show (if k = k' then some v else none) = none
    rw [if_neg (fun hc => h hc.symm)]
  | cons p m ih =>
    obtain ⟨a, w⟩ := p
    show jsGet (if a = k then (k, v) :: m else (a, w) :: jsSet m k v) k' =
      if a = k' then some w else jsGet m k'
    by_cases ha : a = k
    · rw [if_pos ha]
      show (if k = k' then some v else jsGet m k') =
        if a = k' then some w else jsGet m k'
      rw [if_neg (fun hc => h hc.symm), if_neg (fun (hc : a = k') => h (hc ▸ ha))]
    · rw [if_neg ha]
      show (if a = k' then some w else jsGet (jsSet m k v) k') =
        if a = k' then some w else jsGet m k'
      by_cases ha' : a = k'
      · rw [if_pos ha', if_pos ha']
      · rw [if_neg ha', if_neg ha']
        exact ih

theorem jsDelete_absent {κ α : Type} [DecidableEq κ] (m : JsMap κ α) (k : κ)
    (h : jsGet m k = none) : jsDelete m k = m := by
  induction m with
  | nil => rfl
  | cons p m ih =>
    obtain ⟨a, v⟩ := p
    by_cases ha : a = k
    · simp [jsGet, ha] at h
    · simp only [jsGet, ha, if_neg, if_false] at h
      simp [jsDelete, ha, ih h]

theorem jsDelete_idem {κ α : Type} [DecidableEq κ] (m : JsMap κ α) (k : κ) :
    jsDelete (jsDelete m k) k = jsDelete m k :=
  jsDelete_absent _ _ (jsGet_delete_self m k)

theorem foldl_preserve {α β : Type} (P : α → Prop) (f : α → β → α)
    (h : ∀ a b, P a → P (f a b)) : ∀ (l : List β) (a : α), P a → P (l.foldl f a) := by
  intro l
  induction l with
  | nil => intro a ha; exact ha
  | cons b l ih => intro a ha; exact ih (f a b) (h a b ha)

theorem set_options (s : NeocacheState) (now : Nat) (id : String) (v : Nat)
    (o : Option Nat) : (set s now id v o).options = s.options := by
  unfold set
  repeat' split
  all_goals rfl

theorem getFetch_state (s : NeocacheState) (now : Nat) (id : String) (p : Producer)
    (o : Option Nat) :
    (getFetch s now id p o).2 = s ∨
      ∃ v, p = .ok v ∧ (getFetch s now id p o).2 = set s now id v o := by
  cases p with
  | noFunc => exact Or.inl rfl
  | fail e => exact Or.inl rfl
  | ok v => exact Or.inr ⟨v, rfl, rfl⟩

theorem get_options (s : NeocacheState) (now : Nat) (id : String) (p : Producer)
    (o : Option Nat) : (get s now id p o).2.options = s.options := by
  unfold get getOld getFetch
  repeat' split
  all_goals first | rfl | exact set_options ..

theorem invalidate_options (s : NeocacheState) (id : String) :
    (invalidate s id).options = s.options := rfl

theorem purgeStep_options (now : Nat) (acc : NeocacheState) (k : String) :
    (purgeStep now acc k).options = acc.options := by
  unfold purgeStep
  split
  · split
    · rfl
    · rfl
  · rfl

theorem purgeExpired_options (s : NeocacheState) (now : Nat) :
    (purgeExpired s now).options = s.options := by
  unfold purgeExpired
  refine foldl_preserve (fun acc => acc.options = s.options) _ ?_ _ s rfl
  intro a b ha
  rw [purgeStep_options]
  exact ha

theorem applyStep_options (s : NeocacheState) (st : Step) :
    (applyStep s st).options = s.options := by
  cases st with
  | get now id p o => exact get_options ..
  | set now id v o => exact set_options ..
  | invalidate id => exact invalidate_options ..
  | purge now => exact purgeExpired_options ..

theorem get_empty (s : NeocacheState) (now : Nat) (p : Producer) (o : Option Nat) :
    get s now "" p o = (.ok none, s) := by
  unfold get
  rw [if_pos rfl]

theorem set_empty (s : NeocacheState) (now : Nat) (v : Nat) (o : Option Nat) :
    set s now "" v o = s := by
  unfold set
  rw [if_pos rfl]

theorem set_cases (s : NeocacheState) (now : Nat) (id : String) (v : Nat)
    (o : Option Nat) (hid : id ≠ "") :
    (jsHas s.cache id = true ∧ stepRotates s (.set now id v o) = false ∧
      (set s now id v o).cache = jsSet (jsDelete s.cache id) id (mkEntry s now o v) ∧
      (set s now id v o).oldCache = jsDelete s.oldCache id) ∨
    (jsHas s.cache id = false ∧ stepRotates s (.set now id v o) = true ∧
      (set s now id v o).cache = jsSet [] id (mkEntry s now o v) ∧
      (set s now id v o).oldCache = s.cache) ∨
    (jsHas s.cache id = false ∧ stepRotates s (.set now id v o) = false ∧
      (set s now id v o).cache = jsSet s.cache id (mkEntry s now o v) ∧
      (set s now id v o).oldCache = jsDelete s.oldCache id) := by
  by_cases hh : jsHas s.cache id
  · refine Or.inl ⟨hh, by simp [stepRotates, hh], ?_, ?_⟩ <;>
      (unfold set; rw [if_neg hid]; simp only [mkEntry, hh, if_true]; split <;> rfl)
  · rw [Bool.not_eq_true] at hh
    by_cases hc : (maxSizeTruthy s.options.maxSize = true ∧
        s.options.maxSize.getD 0 ≤ jsSize s.cache)
    · refine Or.inr (Or.inl ⟨hh, by simp [stepRotates, hid, hh, hc.1, hc.2], ?_, ?_⟩) <;>
        (unfold set; rw [if_neg hid]; simp only [mkEntry, hh, Bool.false_eq_true, if_false,
          if_pos hc]; split <;> rfl)
    · have hr : stepRotates s (.set now id v o) = false := by
        rcases Decidable.not_and_iff_or_not.mp hc with h1 | h1 <;>
          simp [stepRotates, hh, h1]
      refine Or.inr (Or.inr ⟨hh, hr, ?_, ?_⟩) <;>
        (unfold set; rw [if_neg hid]; simp only [mkEntry, hh, Bool.false_eq_true, if_false,
          if_neg hc]; split <;> rfl)

theorem jsGet_none_of_not_has {κ α : Type} [DecidableEq κ] (m : JsMap κ α) (k : κ)
    (h : jsHas m k = false) : jsGet m k = none := by
  cases hg : jsGet m k with
  | none => rfl
  | some v => rw [jsHas, hg] at h; exact absurd h (by simp)

theorem get_cache_hit (s : NeocacheState) (now : Nat) (id : String) (p : Producer)
    (o : Option Nat) (it : CacheItem) (hid : id ≠ "") (hc : jsGet s.cache id = some it)
    (hl : now < it.expireTime) :
    get s now id p o =
      (.ok (some it.data), { s with cache := jsSet (jsDelete s.cache id) id it }) := by
  unfold get
  rw [if_neg hid]
  simp only [hc, hl, if_true]

theorem get_old_hit (s : NeocacheState) (now : Nat) (id : String) (p : Producer)
    (o : Option Nat) (it : CacheItem) (hid : id ≠ "")
    (hcl : cacheLive s now id = false) (ho : jsGet s.oldCache id = some it)
    (hl : now < it.expireTime) :
    get s now id p o =
      (.ok (some it.data),
        { s with oldCache := jsDelete s.oldCache id, cache := jsSet s.cache id it }) := by
  unfold get getOld
  rw [if_neg hid]
  cases hc : jsGet s.cache id with
  | none => simp only [hc, ho, hl, if_true]
  | some it0 =>
    have hd : ¬ now < it0.expireTime := by
      intro hlt
      rw [cacheLive, hc] at hcl
      simpa [hlt] using hcl
    simp only [hc, hd, if_false, ho, hl, if_true]

theorem get_miss (s : NeocacheState) (now : Nat) (id : String) (p : Producer)
    (o : Option Nat) (hid : id ≠ "") (hm : liveData s now id = none) :
    get s now id p o = getFetch s now id p o := by
  unfold get getOld
  rw [if_neg hid]
  cases hc : jsGet s.cache id with
  | some it =>
    simp only [liveData, hc] at hm
    by_cases hl : now < it.expireTime
    · rw [if_pos hl] at hm; exact absurd hm (by simp)
    · rw [if_neg hl] at hm
      simp only [hl, if_false]
      cases ho : jsGet s.oldCache id with
      | none => simp only [ho]
      | some it' =>
        simp only [liveOldData, ho] at hm
        have hl' : ¬ now < it'.expireTime := by
          intro hlt; rw [if_pos hlt] at hm; exact absurd hm (by simp)
        simp only [ho, hl', if_false]
  | none =>
    simp only [liveData, hc] at hm
    cases ho : jsGet s.oldCache id with
    | none => simp only [ho]
    | some it' =>
      simp only [liveOldData, ho] at hm
      have hl' : ¬ now < it'.expireTime := by
        intro hlt; rw [if_pos hlt] at hm; exact absurd hm (by simp)
      simp only [ho, hl', if_false]

theorem gen_disjoint_invalidate (s : NeocacheState) (id : String)
    (h : GenDisjoint s) : GenDisjoint (invalidate s id) := by
  intro k
  by_cases hk : k = id
  · subst hk
    exact Or.inl (jsGet_delete_self ..)
  · rw [invalidate]
    rcases h k with h1 | h1
    · exact Or.inl (by rw [jsGet_delete_other _ _ _ hk, h1])
    · exact Or.inr (by rw [jsGet_delete_other _ _ _ hk, h1])

theorem gen_disjoint_set (s : NeocacheState) (now : Nat) (id : String) (v : Nat)
    (o : Option Nat) (h : GenDisjoint s) : GenDisjoint (set s now id v o) := by
  by_cases hid : id = ""
  · subst hid; rw [set_empty]; exact h
  · rcases set_cases s now id v o hid with ⟨_, _, hca, hol⟩ | ⟨hh, _, hca, hol⟩ |
      ⟨_, _, hca, hol⟩ <;> intro k <;> rw [hca, hol] <;> by_cases hk : k = id
    · subst hk; exact Or.inr (jsGet_delete_self ..)
    · rcases h k with h1 | h1
      · exact Or.inl (by
          rw [jsGet_set_other _ _ _ _ hk, jsGet_delete_other _ _ _ hk, h1])
      · exact Or.inr (by rw [jsGet_delete_other _ _ _ hk, h1])
    · subst hk; exact Or.inr (jsGet_none_of_not_has _ _ hh)
    · exact Or.inl (by rw [jsGet_set_other _ _ _ _ hk]; rfl)
    · subst hk; exact Or.inr (jsGet_delete_self ..)
    · rcases h k with h1 | h1
      · exact Or.inl (by rw [jsGet_set_other _ _ _ _ hk, h1])
      · exact Or.inr (by rw [jsGet_delete_other _ _ _ hk, h1])

theorem gen_disjoint_get (s : NeocacheState) (now : Nat) (id : String) (p : Producer)
    (o : Option Nat) (h : GenDisjoint s) : GenDisjoint (get s now id p o).2 := by
  by_cases hid : id = ""
  · subst hid; rw [get_empty]; exact h
  · by_cases hcl : cacheLive s now id = true
    · obtain ⟨it, hc, hl⟩ : ∃ it, jsGet s.cache id = some it ∧ now < it.expireTime := by
        rw [cacheLive] at hcl
        cases hc : jsGet s.cache id with
        | none => rw [hc] at hcl; exact absurd hcl (by simp)
        | some it => rw [hc] at hcl; exact ⟨it, rfl, by simpa using hcl⟩
      rw [get_cache_hit s now id p o it hid hc hl]
      intro k
      by_cases hk : k = id
      · rcases h id with h1 | h1
        · rw [hc] at h1; exact absurd h1 (by simp)
        · exact Or.inr (by rw [hk]; exact h1)
      · rcases h k with h1 | h1
        · exact Or.inl (by
            rw [jsGet_set_other _ _ _ _ hk, jsGet_delete_other _ _ _ hk, h1])
        · exact Or.inr h1
    · rw [Bool.not_eq_true] at hcl
      cases ho : jsGet s.oldCache id with
      | some it =>
        by_cases hl : now < it.expireTime
        · rw [get_old_hit s now id p o it hid hcl ho hl]
          intro k
          by_cases hk : k = id
          · subst hk; exact Or.inr (jsGet_delete_self ..)
          · rcases h k with h1 | h1
            · exact Or.inl (by rw [jsGet_set_other _ _ _ _ hk, h1])
            · exact Or.inr (by rw [jsGet_delete_other _ _ _ hk, h1])
        · have hm : liveData s now id = none := by
            rw [liveData, liveOldData, ho]
            cases hc : jsGet s.cache id with
            | none => simp [hl]
            | some it0 =>
              have : ¬ now < it0.expireTime := by
                intro hlt; rw [cacheLive, hc] at hcl; simpa [hlt] using hcl
              simp [this, hl]
          rw [get_miss s now id p o hid hm]
          rcases getFetch_state s now id p o with h1 | ⟨v, _, h1⟩
          · rw [h1]; exact h
          · rw [h1]; exact gen_disjoint_set _ _ _ _ _ h
      | none =>
        have hm : liveData s now id = none := by
          rw [liveData, liveOldData, ho]
          cases hc : jsGet s.cache id with
          | none => simp
          | some it0 =>
            have : ¬ now < it0.expireTime := by
              intro hlt; rw [cacheLive, hc] at hcl; simpa [hlt] using hcl
            simp [this]
        rw [get_miss s now id p o hid hm]
        rcases getFetch_state s now id p o with h1 | ⟨v, _, h1⟩
        · rw [h1]; exact h
        · rw [h1]; exact gen_disjoint_set _ _ _ _ _ h

theorem gen_disjoint_purgeStep (now : Nat) (acc : NeocacheState) (k : String)
    (h : GenDisjoint acc) : GenDisjoint (purgeStep now acc k) := by
  unfold purgeStep
  split
  · split
    · exact gen_disjoint_invalidate _ _ h
    · exact h
  · exact h

theorem gen_disjoint_purge (s : NeocacheState) (now : Nat) (h : GenDisjoint s) :
    GenDisjoint (purgeExpired s now) := by
  unfold purgeExpired
  exact foldl_preserve GenDisjoint _ (fun a b ha => gen_disjoint_purgeStep now a b ha) _ s h

theorem gen_disjoint_applyStep (s : NeocacheState) (st : Step) (h : GenDisjoint s) :
    GenDisjoint (applyStep s st) := by
  cases st with
  | get now id p o => exact gen_disjoint_get _ _ _ _ _ h
  | set now id v o => exact gen_disjoint_set _ _ _ _ _ h
  | invalidate id => exact gen_disjoint_invalidate _ _ h
  | purge now => exact gen_disjoint_purge _ _ h

theorem no_empty_invalidate (s : NeocacheState) (id : String) (h : NoEmptyKey s) :
    NoEmptyKey (invalidate s id) := by
  by_cases hk : ("" : String) = id
  · exact ⟨by rw [invalidate, ← hk, jsGet_delete_self], by rw [invalidate, ← hk, jsGet_delete_self]⟩
  · exact ⟨by rw [invalidate, jsGet_delete_other _ _ _ hk, h.1],
      by rw [invalidate, jsGet_delete_other _ _ _ hk, h.2]⟩

theorem no_empty_set (s : NeocacheState) (now : Nat) (id : String) (v : Nat)
    (o : Option Nat) (h : NoEmptyKey s) : NoEmptyKey (set s now id v o) := by
  by_cases hid : id = ""
  · subst hid; rw [set_empty]; exact h
  · have hk : ("" : String) ≠ id := fun hc => hid hc.symm
    rcases set_cases s now id v o hid with ⟨_, _, hca, hol⟩ | ⟨_, _, hca, hol⟩ |
      ⟨_, _, hca, hol⟩
    · exact ⟨by rw [hca, jsGet_set_other _ _ _ _ hk, jsGet_delete_other _ _ _ hk, h.1],
        by rw [hol, jsGet_delete_other _ _ _ hk, h.2]⟩
    · exact ⟨by rw [hca, jsGet_set_other _ _ _ _ hk]; rfl, by rw [hol]; exact h.1⟩
    · exact ⟨by rw [hca, jsGet_set_other _ _ _ _ hk, h.1],
        by rw [hol, jsGet_delete_other _ _ _ hk, h.2]⟩

theorem no_empty_get (s : NeocacheState) (now : Nat) (id : String) (p : Producer)
    (o : Option Nat) (h : NoEmptyKey s) : NoEmptyKey (get s now id p o).2 := by
  by_cases hid : id = ""
  · subst hid; rw [get_empty]; exact h
  · have hk : ("" : String) ≠ id := fun hc => hid hc.symm
    by_cases hcl : cacheLive s now id = true
    · obtain ⟨it, hc, hl⟩ : ∃ it, jsGet s.cache id = some it ∧ now < it.expireTime := by
        rw [cacheLive] at hcl
        cases hc : jsGet s.cache id with
        | none => rw [hc] at hcl; exact absurd hcl (by simp)
        | some it => rw [hc] at hcl; exact ⟨it, rfl, by simpa using hcl⟩
      rw [get_cache_hit s now id p o it hid hc hl]
      exact ⟨by rw [jsGet_set_other _ _ _ _ hk, jsGet_delete_other _ _ _ hk]; exact h.1, h.2⟩
    · rw [Bool.not_eq_true] at hcl
      cases ho : jsGet s.oldCache id with
      | some it =>
        by_cases hl : now < it.expireTime
        · rw [get_old_hit s now id p o it hid hcl ho hl]
          exact ⟨by rw [jsGet_set_other _ _ _ _ hk]; exact h.1,
            by rw [jsGet_delete_other _ _ _ hk]; exact h.2⟩
        · have hm : liveData s now id = none := by
            rw [liveData, liveOldData, ho]
            cases hc : jsGet s.cache id with
            | none => simp [hl]
            | some it0 =>
              have : ¬ now < it0.expireTime := by
                intro hlt; rw [cacheLive, hc] at hcl; simpa [hlt] using hcl
              simp [this, hl]
          rw [get_miss s now id p o hid hm]
          rcases getFetch_state s now id p o with h1 | ⟨v, _, h1⟩
          · rw [h1]; exact h
          · rw [h1]; exact no_empty_set _ _ _ _ _ h
      | none =>
        have hm : liveData s now id = none := by
          rw [liveData, liveOldData, ho]
          cases hc : jsGet s.cache id with
          | none => simp
          | some it0 =>
            have : ¬ now < it0.expireTime := by
              intro hlt; rw [cacheLive, hc] at hcl; simpa [hlt] using hcl
            simp [this]
        rw [get_miss s now id p o hid hm]
        rcases getFetch_state s now id p o with h1 | ⟨v, _, h1⟩
        · rw [h1]; exact h
        · rw [h1]; exact no_empty_set _ _ _ _ _ h

theorem no_empty_purgeStep (now : Nat) (acc : NeocacheState) (k : String)
    (h : NoEmptyKey acc) : NoEmptyKey (purgeStep now acc k) := by
  unfold purgeStep
  split
  · split
    · exact no_empty_invalidate _ _ h
    · exact h
  · exact h

theorem no_empty_purge (s : NeocacheState) (now : Nat) (h : NoEmptyKey s) :
    NoEmptyKey (purgeExpired s now) := by
  unfold purgeExpired
  exact foldl_preserve NoEmptyKey _ (fun a b ha => no_empty_purgeStep now a b ha) _ s h

theorem inv_applyStep (s : NeocacheState) (st : Step) (h : Inv s) :
    Inv (applyStep s st) := by
  refine ⟨gen_disjoint_applyStep s st h.1, ?_⟩
  cases st with
  | get now id p o => exact no_empty_get _ _ _ _ _ h.2
  | set now id v o => exact no_empty_set _ _ _ _ _ h.2
  | invalidate id => exact no_empty_invalidate _ _ h.2
  | purge now => exact no_empty_purge _ _ h.2

theorem reachable_inv (s : NeocacheState) (h : Reachable s) : Inv s := by
  induction h with
  | init u => exact ⟨fun k => Or.inl rfl, rfl, rfl⟩
  | step s st _ ih => exact inv_applyStep s st ih

theorem reachable_runTrace (s : NeocacheState) (tr : List Step) (h : Reachable s) :
    Reachable (runTrace s tr) := by
  induction tr generalizing s with
  | nil => exact h
  | cons st tr ih => exact ih (applyStep s st) (Reachable.step s st h)

theorem get_live_result (s : NeocacheState) (now : Nat) (id : String) (p : Producer)
    (o : Option Nat) (d : Nat) (hid : id ≠ "") (hd : liveData s now id = some d) :
    (get s now id p o).1 = .ok (some d) := by
  cases hc : jsGet s.cache id with
  | some it =>
    by_cases hl : now < it.expireTime
    · have hdd : it.data = d := by
        simp only [liveData, hc, if_pos hl, Option.some.injEq] at hd
        exact hd
      rw [get_cache_hit s now id p o it hid hc hl, hdd]
    · have hcl : cacheLive s now id = false := by simp [cacheLive, hc, hl]
      simp only [liveData, hc, if_neg hl] at hd
      cases ho : jsGet s.oldCache id with
      | some it' =>
        simp only [liveOldData, ho] at hd
        by_cases hl' : now < it'.expireTime
        · have hdd : it'.data = d := by
            rw [if_pos hl'] at hd
            exact Option.some.injEq .. ▸ hd
          rw [get_old_hit s now id p o it' hid hcl ho hl', hdd]
        · rw [if_neg hl'] at hd; exact absurd hd (by simp)
      | none => simp [liveOldData, ho] at hd
  | none =>
    have hcl : cacheLive s now id = false := by simp [cacheLive, hc]
    simp only [liveData, hc] at hd
    cases ho : jsGet s.oldCache id with
    | some it' =>
      simp only [liveOldData, ho] at hd
      by_cases hl' : now < it'.expireTime
      · have hdd : it'.data = d := by
          rw [if_pos hl'] at hd
          exact Option.some.injEq .. ▸ hd
        rw [get_old_hit s now id p o it' hid hcl ho hl', hdd]
      · rw [if_neg hl'] at hd; exact absurd hd (by simp)
    | none => simp [liveOldData, ho] at hd

/-- C10: invalidating a key that is absent from both generations is a no-op
leaving the entire engine state unchanged (`invalidate` is total, so it never
raises), and invalidate is idempotent. -/
theorem invalidate_absent_noop_and_idempotent (s : NeocacheState) (id : String) :
    (jsGet s.cache id = none → jsGet s.oldCache id = none → invalidate s id = s) ∧
    invalidate (invalidate s id) id = invalidate s id := by
  constructor
  · intro h1 h2
    rw [invalidate, jsDelete_absent _ _ h1, jsDelete_absent _ _ h2]
  · rw [invalidate, invalidate]
    simp [jsDelete_idem]

/-- Witness for C10 at a concrete reachable state and absent key. -/
theorem invalidate_absent_noop_and_idempotent_witness :
    jsGet exState1.cache "z" = none ∧ jsGet exState1.oldCache "z" = none ∧
    invalidate exState1 "z" = exState1 :=
  ⟨rfl, rfl, (invalidate_absent_noop_and_idempotent exState1 "z").1 rfl rfl⟩

/-- C6: when `get`'s producer is actually invoked (nonempty key, both
generation lookups miss or are expired) and the producer throws, the failure
propagates to the caller unmodified and the engine state — generation maps,
bucket index and timer flag alike — is exactly the state before the call. -/
theorem producer_failure_propagates (s : NeocacheState) (now : Nat) (id : String)
    (o : Option Nat) (e : Nat) (hid : id ≠ "") (hm : liveData s now id = none) :
    get s now id (.fail e) o = (.error e, s) := by
  rw [get_miss s now id _ o hid hm]; rfl

/-- Witness for C6 on a concrete state and missing key. -/
theorem producer_failure_propagates_witness :
    liveData exState1 0 "z" = none ∧
    get exState1 0 "z" (.fail 42) none = (.error 42, exState1) :=
  ⟨rfl, producer_failure_propagates exState1 0 "z" none 42 (by decide) rfl⟩

/-- C9 counterexample: `get` called with the empty-string key and a producer
returns null without invoking the producer — the `if (!id)` guard precedes
everything, refuting "never returns the not-found value". -/
theorem get_empty_key_ignores_producer :
    (get (init {}) 0 "" (.ok 5) none).1 = .ok none := rfl

/-- C9 (amended): for every nonempty key, `get` with a (successful) producer
never returns null: it yields the live cached value when one exists and the
produced value otherwise. -/
theorem get_with_producer_not_null (s : NeocacheState) (now : Nat) (id : String)
    (v : Nat) (o : Option Nat) (hid : id ≠ "") :
    (get s now id (.ok v) o).1 = .ok (some ((liveData s now id).getD v)) := by
  cases hd : liveData s now id with
  | some d => rw [get_live_result s now id (.ok v) o d hid hd]; rfl
  | none => rw [get_miss s now id (.ok v) o hid hd]; rfl

/-- Witness for the amended C9 on a hit and on a miss. -/
theorem get_with_producer_not_null_witness :
    (get exState1 0 "a" (.ok 6) none).1 = .ok (some 5) ∧
    (get exState1 0 "z" (.ok 6) none).1 = .ok (some 6) :=
  ⟨by
    have h := get_with_producer_not_null exState1 0 "a" 6 none (by decide)
    rw [h]; rfl,
   by
    have h := get_with_producer_not_null exState1 0 "z" 6 none (by decide)
    rw [h]; rfl⟩

/-- C7 counterexample: with `defaultExpireTimeMs: 0` and no per-call TTL, the
entry stored at `t = 3` gets `expireAt = 3` — it is resident but every `get`
(here at `t = 5` and at `t = 3`) already returns null, refuting "never
expires". -/
theorem zero_default_ttl_cex :
    jsGet exState7.cache "k" = some ⟨9, 3⟩ ∧
    (get exState7 5 "k" .noFunc none).1 = .ok none ∧
    (get exState7 3 "k" .noFunc none).1 = .ok none :=
  ⟨rfl, rfl, rfl⟩

/-- C7 (amended): when `defaultExpireTimeMs` is zero (falsy) and `set` is
given no per-call TTL, the stored entry's `expireAt` equals the `set` time
(there is no never-expires sentinel), so any `get` at or after that time
returns null rather than the stored value. -/
theorem zero_default_ttl_expires_immediately (s : NeocacheState) (now now' : Nat)
    (k : String) (v : Nat) (hk : k ≠ "") (hd : s.options.defaultExpireTimeMs = 0)
    (h : now ≤ now') :
    jsGet (set s now k v none).cache k = some ⟨v, now⟩ ∧
    (get (set s now k v none) now' k .noFunc none).1 = .ok none := by
  have he : mkEntry s now none v = ⟨v, now⟩ := by simp [mkEntry, jsOrDefault, hd]
  have hca : jsGet (set s now k v none).cache k = some (⟨v, now⟩ : CacheItem) := by
    rcases set_cases s now k v none hk with ⟨_, _, hc, _⟩ | ⟨_, _, hc, _⟩ | ⟨_, _, hc, _⟩ <;>
      rw [hc, jsGet_set_self, he]
  have hol : jsGet (set s now k v none).oldCache k = none := by
    rcases set_cases s now k v none hk with ⟨_, _, _, ho⟩ | ⟨hh, _, _, ho⟩ | ⟨_, _, _, ho⟩
    · rw [ho]; exact jsGet_delete_self ..
    · rw [ho]; exact jsGet_none_of_not_has _ _ hh
    · rw [ho]; exact jsGet_delete_self ..
  refine ⟨hca, ?_⟩
  have hm : liveData (set s now k v none) now' k = none := by
    rw [liveData, hca, liveOldData, hol]
    simp [Nat.not_lt.mpr h]
  rw [get_miss _ _ _ _ _ hk hm]; rfl

/-- Witness for the amended C7. -/
theorem zero_default_ttl_expires_immediately_witness :
    jsGet exState7.cache "k" = some ⟨9, 3⟩ ∧
    (get exState7 5 "k" .noFunc none).1 = .ok none := by
  have h := zero_default_ttl_expires_immediately
    (init { defaultExpireTimeMs := some 0, purgeIntervalMs := some 0 }) 3 5 "k" 9
    (by decide) rfl (by decide)
  exact ⟨h.1, h.2⟩

/-- C2 (code deviation): running `exTrace2` with `maxSize = 2` leaves four
keys resident across the two generations — more than `2N - 1 = 3` — because
the promotion path of `get` inserts into the current generation without any
rotation check; after invalidating the only current-generation key, the
`size` getter reports 3 > N = 2, because its `maxSize` cap is skipped when
the current generation is empty.  (The repo's own test "LRU should keep less
than 2x the max size" fails on this behaviour at the fifth insertion.) -/
theorem residency_bound_violated :
    jsSize exState2.cache + jsSize exState2.oldCache = 4 ∧
    GenDisjoint exState2 ∧
    Neocache.size (invalidate exState2 "d") = 3 := by
  refine ⟨rfl, ?_, rfl⟩
  exact (reachable_inv exState2
    (reachable_runTrace (init exOpts2) exTrace2 (Reachable.init exOpts2))).1

/-- C4 counterexample: with `maxSize = 3`, key `"T"` is read as a hit and
only two distinct-key insertions (`"c"`, `"d"`) follow — fewer than `N = 3`
— yet `"T"` is evicted: the intervening promotions of `"a"` and `"b"` grow
the current generation, so two rotations fire within those two insertions. -/
theorem hot_key_evicted_within_maxSize_insertions :
    (get exState4a 0 "T" .noFunc none).1 = .ok (some 7) ∧
    storedEntry exState4b "T" = none ∧
    (get exState4b 1 "T" .noFunc none).1 = .ok none :=
  ⟨rfl, rfl, rfl⟩

/-- C5 counterexample: the same `set`/`get` sequence at the same instants
returns `some 2` for the final `get "b"` when the purge timer runs (it
reclaims the expired `"a"`, changing when rotation fires) and `null` when
purging is disabled — purging does change a `get` result. -/
theorem purge_changes_get_result :
    (runOut (init exOptsP5) exTraceP5).2 = [.ok (some 2)] ∧
    (runOut (init exOptsQ5) exTraceQ5).2 = [.ok none] :=
  ⟨rfl, rfl⟩

/-- C8 counterexample: at `now = 10` the sweep examines bucket
`floor(10/10) = 1`, which lists `"a"`; `"a"` is resident (in the previous
generation) with `expireAt = 5 < 10`, yet it is not invalidated — the sweep
only consults the current generation — although the bucket is still dropped. -/
theorem purge_skips_previous_generation :
    jsGet exState8.timeToKeyBucket 1 = some ["a"] ∧
    jsGet exState8.oldCache "a" = some ⟨1, 5⟩ ∧
    jsGet (purgeExpired exState8 10).oldCache "a" = some ⟨1, 5⟩ ∧
    (purgeExpired exState8 10).timeToKeyBucket = jsDelete exState8.timeToKeyBucket 1 :=
  ⟨rfl, rfl, rfl, rfl⟩

/-- C3: disjoint generations — in every state reachable by
get/set/invalidate/purge, no key is present in both the current and the
previous generation map at once (`set` and the promotion path always delete
from the previous generation before inserting into the current one). -/
theorem generations_disjoint (s : NeocacheState) (h : Reachable s) (k : String) :
    ¬ (jsHas s.cache k = true ∧ jsHas s.oldCache k = true) := by
  intro hc
  rcases (reachable_inv s h).1 k with h1 | h1
  · have hx := hc.1
    rw [jsHas, h1] at hx
    exact absurd hx (by simp)
  · have hx := hc.2
    rw [jsHas, h1] at hx
    exact absurd hx (by simp)

/-- Witness for C3 at a concrete reachable state with both generations
non-empty. -/
theorem generations_disjoint_witness :
    jsHas exState2.oldCache "a" = true ∧
    ¬ (jsHas exState2.cache "a" = true ∧ jsHas exState2.oldCache "a" = true) :=
  ⟨rfl, generations_disjoint exState2
    (reachable_runTrace (init exOpts2) exTrace2 (Reachable.init exOpts2)) "a"⟩

/-- C1: in every reachable state (purged or not — `Reachable` admits purge
firings anywhere), a `get` with no producer returns null iff the key has no
stored entry (never set, invalidated, or evicted) or the stored entry's
`expireAt` is at or before the current time; otherwise it returns the stored
value. -/
theorem ttl_get_iff (s : NeocacheState) (h : Reachable s) (now : Nat) (id : String) :
    ((get s now id .noFunc none).1 = .ok none ↔
      storedEntry s id = none ∨
        ∃ e, storedEntry s id = some e ∧ e.expireTime ≤ now) ∧
    (∀ e, storedEntry s id = some e → now < e.expireTime →
      (get s now id .noFunc none).1 = .ok (some e.data)) := by
  obtain ⟨hdis, hemp⟩ := reachable_inv s h
  by_cases hid : id = ""
  · subst hid
    have hse : storedEntry s "" = none := by rw [storedEntry, hemp.1]; exact hemp.2
    rw [get_empty]
    refine ⟨⟨fun _ => Or.inl hse, fun _ => rfl⟩, ?_⟩
    intro e he
    rw [hse] at he
    exact absurd he (by simp)
  · have hld : liveData s now id =
        match storedEntry s id with
        | some e => if now < e.expireTime then some e.data else none
        | none => none := by
      cases hc : jsGet s.cache id with
      | some it =>
        have ho : jsGet s.oldCache id = none := by
          rcases hdis id with h1 | h1
          · rw [hc] at h1; exact absurd h1 (by simp)
          · exact h1
        simp only [liveData, hc, storedEntry, liveOldData, ho]
      | none =>
        cases ho : jsGet s.oldCache id <;>
          simp only [liveData, hc, storedEntry, liveOldData, ho]
    cases hse : storedEntry s id with
    | none =>
      have hr : (get s now id .noFunc none).1 = .ok none := by
        rw [get_miss s now id .noFunc none hid (by rw [hld, hse])]
        rfl
      refine ⟨⟨fun _ => Or.inl rfl, fun _ => hr⟩, ?_⟩
      intro e he
      exact absurd he (by simp)
    | some e =>
      by_cases hl : now < e.expireTime
      · have hr := get_live_result s now id .noFunc none e.data hid
          (by simp only [hld, hse]; rw [if_pos hl])
        refine ⟨⟨fun hx => ?_, fun hx => ?_⟩, ?_⟩
        · rw [hr] at hx
          exact absurd hx (by simp)
        · rcases hx with hx | ⟨e', he', hle⟩
          · exact absurd hx (by simp)
          · rw [Option.some.injEq] at he'
            rw [he'] at hl
            exact absurd hle (Nat.not_le.mpr hl)
        · intro e' he' _
          rw [Option.some.injEq] at he'
          rw [← he', hr]
      · have hr : (get s now id .noFunc none).1 = .ok none := by
          rw [get_miss s now id .noFunc none hid
            (by simp only [hld, hse]; rw [if_neg hl])]
          rfl
        refine ⟨⟨fun _ => Or.inr ⟨e, rfl, Nat.le_of_not_lt hl⟩, fun _ => hr⟩, ?_⟩
        intro e' he' hl'
        rw [Option.some.injEq] at he'
        rw [he'] at hl
        exact absurd hl' hl

/-- Witness for C1: before the default TTL elapses the stored value is
served; at its `expireAt` the same key yields null. -/
theorem ttl_get_iff_witness :
    (get exState1 5 "a" .noFunc none).1 = .ok (some 5) ∧
    (get exState1 3600000 "a" .noFunc none).1 = .ok none := by
  have hre : Reachable exState1 :=
    Reachable.step (init { purgeIntervalMs := some 0 }) (.set 0 "a" 5 none)
      (Reachable.init { purgeIntervalMs := some 0 })
  constructor
  · exact (ttl_get_iff exState1 hre 5 "a").2 ⟨5, 3600000⟩ rfl (by decide)
  · exact (ttl_get_iff exState1 hre 3600000 "a").1.2
      (Or.inr ⟨⟨5, 3600000⟩, rfl, by decide⟩)

theorem purge_fold_general (s : NeocacheState) (now : Nat) :
    ∀ (rest : List String) (acc : NeocacheState) (done : List String),
    acc.options = s.options →
    acc.timeToKeyBucket = s.timeToKeyBucket →
    (∀ k, jsGet acc.cache k =
      if k ∈ done ∧ expiredInCache s now k = true then none else jsGet s.cache k) →
    (∀ k, jsGet acc.oldCache k =
      if k ∈ done ∧ expiredInCache s now k = true then none
      else jsGet s.oldCache k) →
    ((rest.foldl (purgeStep now) acc).options = s.options ∧
     (rest.foldl (purgeStep now) acc).timeToKeyBucket = s.timeToKeyBucket ∧
     (∀ k, jsGet (rest.foldl (purgeStep now) acc).cache k =
       if k ∈ done ++ rest ∧ expiredInCache s now k = true then none
       else jsGet s.cache k) ∧
     (∀ k, jsGet (rest.foldl (purgeStep now) acc).oldCache k =
       if k ∈ done ++ rest ∧ expiredInCache s now k = true then none
       else jsGet s.oldCache k)) := by
  intro rest
  induction rest with
  | nil =>
    intro acc done h1 h2 h3 h4
    exact ⟨h1, h2, by simpa using h3, by simpa using h4⟩
  | cons j rest ih =>
    intro acc done h1 h2 h3 h4
    have hcond : ∀ k : String, (k ∈ done ++ [j] ∧ expiredInCache s now k = true) ↔
        ((k ∈ done ∧ expiredInCache s now k = true) ∨
          (k = j ∧ expiredInCache s now k = true)) := by
      intro k
      constructor
      · rintro ⟨hm, he⟩
        rcases List.mem_append.mp hm with hm | hm
        · exact Or.inl ⟨hm, he⟩
        · exact Or.inr ⟨List.mem_singleton.mp hm, he⟩
      · rintro (⟨hm, he⟩ | ⟨hm, he⟩)
        · exact ⟨List.mem_append.mpr (Or.inl hm), he⟩
        · exact ⟨List.mem_append.mpr (Or.inr (List.mem_singleton.mpr hm)), he⟩
    have key : (purgeStep now acc j).options = s.options ∧
        (purgeStep now acc j).timeToKeyBucket = s.timeToKeyBucket ∧
        (∀ k, jsGet (purgeStep now acc j).cache k =
          if k ∈ done ++ [j] ∧ expiredInCache s now k = true then none
          else jsGet s.cache k) ∧
        (∀ k, jsGet (purgeStep now acc j).oldCache k =
          if k ∈ done ++ [j] ∧ expiredInCache s now k = true then none
          else jsGet s.oldCache k) := by
      by_cases he : expiredInCache s now j = true
      · obtain ⟨it, hsc, hlt⟩ : ∃ it, jsGet s.cache j = some it ∧ it.expireTime < now := by
          rw [expiredInCache] at he
          cases hsc : jsGet s.cache j with
          | none => rw [hsc] at he; exact absurd he (by simp)
          | some it => rw [hsc] at he; exact ⟨it, rfl, by simpa using he⟩
        by_cases hjd : j ∈ done
        · have hacc : jsGet acc.cache j = none := by rw [h3 j, if_pos ⟨hjd, he⟩]
          have hps : purgeStep now acc j = acc := by simp only [purgeStep, hacc]
          rw [hps]
          refine ⟨h1, h2, ?_, ?_⟩ <;> intro k <;> by_cases hk :
              (k ∈ done ∧ expiredInCache s now k = true)
          · rw [h3 k, if_pos hk, if_pos ((hcond k).mpr (Or.inl hk))]
          · rw [h3 k, if_neg hk, if_neg (fun hx => ?_)]
            rcases (hcond k).mp hx with hx | hx
            · exact hk hx
            · exact hk ⟨hx.1 ▸ hjd, hx.2⟩
          · rw [h4 k, if_pos hk, if_pos ((hcond k).mpr (Or.inl hk))]
          · rw [h4 k, if_neg hk, if_neg (fun hx => ?_)]
            rcases (hcond k).mp hx with hx | hx
            · exact hk hx
            · exact hk ⟨hx.1 ▸ hjd, hx.2⟩
        · have hacc : jsGet acc.cache j = some it := by
            rw [h3 j, if_neg (fun hx => hjd hx.1), hsc]
          have hps : purgeStep now acc j = invalidate acc j := by
            simp only [purgeStep, hacc]
            rw [if_pos hlt]
          rw [hps]
          refine ⟨h1, h2, ?_, ?_⟩ <;> intro k <;> by_cases hk : k = j
          · rw [invalidate]
            show jsGet (jsDelete acc.cache j) k = _
            rw [hk, jsGet_delete_self,
              if_pos ((hcond j).mpr (Or.inr ⟨rfl, he⟩))]
          · rw [invalidate]
            show jsGet (jsDelete acc.cache j) k = _
            rw [jsGet_delete_other _ _ _ hk, h3 k]
            by_cases hd : (k ∈ done ∧ expiredInCache s now k = true)
            · rw [if_pos hd, if_pos ((hcond k).mpr (Or.inl hd))]
            · rw [if_neg hd, if_neg (fun hx => ?_)]
              rcases (hcond k).mp hx with hx | hx
              · exact hd hx
              · exact hk hx.1
          · rw [invalidate]
            show jsGet (jsDelete acc.oldCache j) k = _
            rw [hk, jsGet_delete_self,
              if_pos ((hcond j).mpr (Or.inr ⟨rfl, he⟩))]
          · rw [invalidate]
            show jsGet (jsDelete acc.oldCache j) k = _
            rw [jsGet_delete_other _ _ _ hk, h4 k]
            by_cases hd : (k ∈ done ∧ expiredInCache s now k = true)
            · rw [if_pos hd, if_pos ((hcond k).mpr (Or.inl hd))]
            · rw [if_neg hd, if_neg (fun hx => ?_)]
              rcases (hcond k).mp hx with hx | hx
              · exact hd hx
              · exact hk hx.1
      · rw [Bool.not_eq_true] at he
        have hps : purgeStep now acc j = acc := by
          cases hacc : jsGet acc.cache j with
          | none => simp only [purgeStep, hacc]
          | some it =>
            have hsc : jsGet s.cache j = some it := by
              have h3j := h3 j
              rw [hacc] at h3j
              by_cases hd : (j ∈ done ∧ expiredInCache s now j = true)
              · rw [if_pos hd] at h3j; exact absurd h3j (by simp)
              · rw [if_neg hd] at h3j; exact h3j.symm
            have hnlt : ¬ it.expireTime < now := by
              intro hlt
              rw [expiredInCache, hsc] at he
              simp [hlt] at he
            simp only [purgeStep, hacc]
            rw [if_neg hnlt]
        rw [hps]
        refine ⟨h1, h2, ?_, ?_⟩ <;> intro k <;>
          by_cases hd : (k ∈ done ∧ expiredInCache s now k = true)
        · rw [h3 k, if_pos hd, if_pos ((hcond k).mpr (Or.inl hd))]
        · rw [h3 k, if_neg hd, if_neg (fun hx => ?_)]
          rcases (hcond k).mp hx with hx | hx
          · exact hd hx
          · rw [hx.1] at hx; rw [hx.2] at he; exact absurd he (by simp)
        · rw [h4 k, if_pos hd, if_pos ((hcond k).mpr (Or.inl hd))]
        · rw [h4 k, if_neg hd, if_neg (fun hx => ?_)]
          rcases (hcond k).mp hx with hx | hx
          · exact hd hx
          · rw [hx.1] at hx; rw [hx.2] at he; exact absurd he (by simp)
    have happ : (done ++ [j]) ++ rest = done ++ j :: rest := by simp
    have := ih (purgeStep now acc j) (done ++ [j]) key.1 key.2.1 key.2.2.1 key.2.2.2
    rw [happ] at this
    exact this

/-- C8 (amended): each firing of the sweep examines exactly the keys in
bucket `floor(now / purgeIntervalMs)`; it invalidates a key if and only if
that key is listed there and still present in the *current* generation with
`expireAt` in the past (entries resident only in the previous generation are
skipped, and unexpired entries are never removed), and it then deletes that
bucket's key list. -/
theorem purge_characterization (s : NeocacheState) (now : Nat)
    (_hp : s.options.purgeIntervalMs ≠ 0) :
    ((purgeExpired s now).timeToKeyBucket =
      jsDelete s.timeToKeyBucket (now / s.options.purgeIntervalMs)) ∧
    (∀ k, jsGet (purgeExpired s now).cache k =
      if k ∈ (jsGet s.timeToKeyBucket (now / s.options.purgeIntervalMs)).getD [] ∧
          expiredInCache s now k = true
      then none else jsGet s.cache k) ∧
    (∀ k, jsGet (purgeExpired s now).oldCache k =
      if k ∈ (jsGet s.timeToKeyBucket (now / s.options.purgeIntervalMs)).getD [] ∧
          expiredInCache s now k = true
      then none else jsGet s.oldCache k) := by
  have h := purge_fold_general s now
    ((jsGet s.timeToKeyBucket (now / s.options.purgeIntervalMs)).getD []) s []
    rfl rfl (fun k => by simp) (fun k => by simp)
  refine ⟨?_, ?_, ?_⟩
  · show jsDelete _ _ = _
    rw [h.2.1]
  · intro k
    have := h.2.2.1 k
    simpa using this
  · intro k
    have := h.2.2.2 k
    simpa using this

/-- Witness for the amended C8: at `exState8` the expired key `"a"` sits in
the previous generation, is listed in the examined bucket, and survives the
sweep, while the bucket itself is dropped. -/
theorem purge_characterization_witness :
    jsGet (purgeExpired exState8 10).oldCache "a" = some ⟨1, 5⟩ ∧
    (purgeExpired exState8 10).timeToKeyBucket =
      jsDelete exState8.timeToKeyBucket 1 := by
  have h := purge_characterization exState8 10 (by decide)
  constructor
  · have h2 := h.2.2 "a"
    rw [h2, if_neg (by decide)]
    rfl
  · exact h.1

theorem mapRel_mono (t t' : Nat) (mP mQ : JsMap String CacheItem) (ht : t ≤ t')
    (h : MapRel t mP mQ) : MapRel t' mP mQ := by
  intro k
  rcases h k with h1 | ⟨h1, e, h2, h3⟩
  · exact Or.inl h1
  · exact Or.inr ⟨h1, e, h2, Nat.lt_of_lt_of_le h3 ht⟩

theorem rel_mono (t t' : Nat) (sP sQ : NeocacheState) (ht : t ≤ t')
    (h : Rel t sP sQ) : Rel t' sP sQ := by
  obtain ⟨hdef, hmP, hmQ, hcache, hold, hdP, hdQ⟩ := h
  exact ⟨hdef, hmP, hmQ, mapRel_mono t t' _ _ ht hcache,
    mapRel_mono t t' _ _ ht hold, hdP, hdQ⟩

theorem liveOldData_rel (t now : Nat) (sP sQ : NeocacheState) (id : String)
    (h : MapRel t sP.oldCache sQ.oldCache) (ht : t ≤ now) :
    liveOldData sP now id = liveOldData sQ now id := by
  rcases h id with heq | ⟨hpn, e, hq, hexp⟩
  · rw [liveOldData, liveOldData, heq]
  · simp only [liveOldData, hpn, hq]
    rw [if_neg (Nat.not_lt.mpr (Nat.le_of_lt (Nat.lt_of_lt_of_le hexp ht)))]

theorem liveData_rel (t now : Nat) (sP sQ : NeocacheState) (id : String)
    (h : Rel t sP sQ) (ht : t ≤ now) :
    liveData sP now id = liveData sQ now id := by
  obtain ⟨hdef, hmP, hmQ, hcache, hold, hdP, hdQ⟩ := h
  have hlo := liveOldData_rel t now sP sQ id hold ht
  rcases hcache id with heq | ⟨hpn, e, hq, hexp⟩
  · rw [liveData, liveData, heq, hlo]
  · simp only [liveData, hpn, hq]
    rw [if_neg (Nat.not_lt.mpr (Nat.le_of_lt (Nat.lt_of_lt_of_le hexp ht))), hlo]

theorem set_nomax_cache (s : NeocacheState) (now : Nat) (id : String) (v : Nat)
    (o : Option Nat) (hid : id ≠ "") (hmax : maxSizeTruthy s.options.maxSize = false)
    (k : String) :
    jsGet (set s now id v o).cache k =
      if k = id then some (mkEntry s now o v) else jsGet s.cache k := by
  rcases set_cases s now id v o hid with ⟨_, _, hca, _⟩ | ⟨_, hr, _, _⟩ | ⟨_, _, hca, _⟩
  · by_cases hk : k = id
    · rw [hca, hk, jsGet_set_self, if_pos rfl]
    · rw [hca, jsGet_set_other _ _ _ _ hk, jsGet_delete_other _ _ _ hk, if_neg hk]
  · rw [stepRotates] at hr
    rw [hmax] at hr
    exact absurd hr (by simp)
  · by_cases hk : k = id
    · rw [hca, hk, jsGet_set_self, if_pos rfl]
    · rw [hca, jsGet_set_other _ _ _ _ hk, if_neg hk]

theorem set_nomax_old (s : NeocacheState) (now : Nat) (id : String) (v : Nat)
    (o : Option Nat) (hid : id ≠ "") (hmax : maxSizeTruthy s.options.maxSize = false)
    (k : String) :
    jsGet (set s now id v o).oldCache k =
      if k = id then none else jsGet s.oldCache k := by
  rcases set_cases s now id v o hid with ⟨_, _, _, hol⟩ | ⟨_, hr, _, _⟩ | ⟨_, _, _, hol⟩
  · by_cases hk : k = id
    · rw [hol, hk, if_pos rfl]
      exact jsGet_delete_self ..
    · rw [hol, jsGet_delete_other _ _ _ hk, if_neg hk]
  · rw [stepRotates] at hr
    rw [hmax] at hr
    exact absurd hr (by simp)
  · by_cases hk : k = id
    · rw [hol, hk, if_pos rfl]
      exact jsGet_delete_self ..
    · rw [hol, jsGet_delete_other _ _ _ hk, if_neg hk]

theorem mkEntry_rel (sP sQ : NeocacheState) (now : Nat) (o : Option Nat) (v : Nat)
    (hdef : sP.options.defaultExpireTimeMs = sQ.options.defaultExpireTimeMs) :
    mkEntry sP now o v = mkEntry sQ now o v := by
  rw [mkEntry, mkEntry, hdef]

theorem sim_set (t now : Nat) (sP sQ : NeocacheState) (id : String) (v : Nat)
    (o : Option Nat) (h : Rel t sP sQ) (ht : t ≤ now) :
    Rel now (set sP now id v o) (set sQ now id v o) := by
  by_cases hid : id = ""
  · subst hid
    rw [set_empty, set_empty]
    exact rel_mono t now _ _ ht h
  · obtain ⟨hdef, hmP, hmQ, hcache, hold, hdP, hdQ⟩ := h
    refine ⟨?_, ?_, ?_, ?_, ?_, gen_disjoint_set _ _ _ _ _ hdP,
      gen_disjoint_set _ _ _ _ _ hdQ⟩
    · rw [set_options, set_options]; exact hdef
    · rw [set_options]; exact hmP
    · rw [set_options]; exact hmQ
    · intro k
      rw [set_nomax_cache sP now id v o hid hmP k,
        set_nomax_cache sQ now id v o hid hmQ k]
      by_cases hk : k = id
      · rw [if_pos hk, if_pos hk, mkEntry_rel sP sQ now o v hdef]
        exact Or.inl rfl
      · rw [if_neg hk, if_neg hk]
        exact mapRel_mono t now _ _ ht hcache k
    · intro k
      rw [set_nomax_old sP now id v o hid hmP k,
        set_nomax_old sQ now id v o hid hmQ k]
      by_cases hk : k = id
      · rw [if_pos hk, if_pos hk]
        exact Or.inl rfl
      · rw [if_neg hk, if_neg hk]
        exact mapRel_mono t now _ _ ht hold k

theorem sim_invalidate (t : Nat) (sP sQ : NeocacheState) (id : String)
    (h : Rel t sP sQ) : Rel t (invalidate sP id) (invalidate sQ id) := by
  obtain ⟨hdef, hmP, hmQ, hcache, hold, hdP, hdQ⟩ := h
  refine ⟨hdef, hmP, hmQ, ?_, ?_, gen_disjoint_invalidate _ _ hdP,
    gen_disjoint_invalidate _ _ hdQ⟩
  · intro k
    by_cases hk : k = id
    · rw [invalidate, invalidate]
      show jsGet (jsDelete sP.cache id) k = jsGet (jsDelete sQ.cache id) k ∨ _
      rw [hk, jsGet_delete_self, jsGet_delete_self]
      exact Or.inl rfl
    · rw [invalidate, invalidate]
      show jsGet (jsDelete sP.cache id) k = jsGet (jsDelete sQ.cache id) k ∨
        (jsGet (jsDelete sP.cache id) k = none ∧ _)
      rw [jsGet_delete_other _ _ _ hk, jsGet_delete_other _ _ _ hk]
      exact hcache k
  · intro k
    by_cases hk : k = id
    · rw [invalidate, invalidate]
      show jsGet (jsDelete sP.oldCache id) k = jsGet (jsDelete sQ.oldCache id) k ∨ _
      rw [hk, jsGet_delete_self, jsGet_delete_self]
      exact Or.inl rfl
    · rw [invalidate, invalidate]
      show jsGet (jsDelete sP.oldCache id) k = jsGet (jsDelete sQ.oldCache id) k ∨
        (jsGet (jsDelete sP.oldCache id) k = none ∧ _)
      rw [jsGet_delete_other _ _ _ hk, jsGet_delete_other _ _ _ hk]
      exact hold k

theorem sim_get (t now : Nat) (sP sQ : NeocacheState) (id : String) (p : Producer)
    (o : Option Nat) (h : Rel t sP sQ) (ht : t ≤ now) :
    (get sP now id p o).1 = (get sQ now id p o).1 ∧
    Rel now (get sP now id p o).2 (get sQ now id p o).2 := by
  by_cases hid : id = ""
  · subst hid
    rw [get_empty, get_empty]
    exact ⟨rfl, rel_mono t now _ _ ht h⟩
  · have hld := liveData_rel t now sP sQ id h ht
    obtain ⟨hdef, hmP, hmQ, hcache, hold, hdP, hdQ⟩ := h
    have hrel : Rel t sP sQ := ⟨hdef, hmP, hmQ, hcache, hold, hdP, hdQ⟩
    cases hv : liveData sQ now id with
    | none =>
      have hvP : liveData sP now id = none := by rw [hld, hv]
      rw [get_miss sP now id p o hid hvP, get_miss sQ now id p o hid hv]
      cases p with
      | noFunc => exact ⟨rfl, rel_mono t now _ _ ht hrel⟩
      | fail e => exact ⟨rfl, rel_mono t now _ _ ht hrel⟩
      | ok v => exact ⟨rfl, sim_set t now sP sQ id v o hrel ht⟩
    | some d =>
      by_cases hclQ : cacheLive sQ now id = true
      · obtain ⟨it, hcQ, hlQ⟩ : ∃ it, jsGet sQ.cache id = some it ∧
            now < it.expireTime := by
          rw [cacheLive] at hclQ
          cases hc : jsGet sQ.cache id with
          | none => rw [hc] at hclQ; exact absurd hclQ (by simp)
          | some it => rw [hc] at hclQ; exact ⟨it, rfl, by simpa using hclQ⟩
        have hcP : jsGet sP.cache id = some it := by
          rcases hcache id with heq | ⟨hpn, e, hq, hexp⟩
          · rw [heq, hcQ]
          · rw [hq, Option.some.injEq] at hcQ
            rw [hcQ] at hexp
            exact absurd hlQ (Nat.not_lt.mpr
              (Nat.le_of_lt (Nat.lt_of_lt_of_le hexp ht)))
        have hgdP := gen_disjoint_get sP now id p o hdP
        have hgdQ := gen_disjoint_get sQ now id p o hdQ
        rw [get_cache_hit sP now id p o it hid hcP hlQ] at hgdP ⊢
        rw [get_cache_hit sQ now id p o it hid hcQ hlQ] at hgdQ ⊢
        refine ⟨rfl, hdef, hmP, hmQ, ?_, mapRel_mono t now _ _ ht hold, hgdP, hgdQ⟩
        intro k
        by_cases hk : k = id
        · show jsGet (jsSet (jsDelete sP.cache id) id it) k =
            jsGet (jsSet (jsDelete sQ.cache id) id it) k ∨ _
          rw [hk, jsGet_set_self, jsGet_set_self]
          exact Or.inl rfl
        · show jsGet (jsSet (jsDelete sP.cache id) id it) k =
            jsGet (jsSet (jsDelete sQ.cache id) id it) k ∨
            (jsGet (jsSet (jsDelete sP.cache id) id it) k = none ∧ _)
          rw [jsGet_set_other _ _ _ _ hk, jsGet_set_other _ _ _ _ hk,
            jsGet_delete_other _ _ _ hk, jsGet_delete_other _ _ _ hk]
          exact mapRel_mono t now _ _ ht hcache k
      · rw [Bool.not_eq_true] at hclQ
        have hclP : cacheLive sP now id = false := by
          rcases hcache id with heq | ⟨hpn, e, hq, hexp⟩
          · unfold cacheLive at hclQ ⊢
            rw [heq]
            exact hclQ
          · unfold cacheLive
            rw [hpn]
        have hloQ : liveOldData sQ now id = some d := by
          cases hc : jsGet sQ.cache id with
          | none => simp only [liveData, hc] at hv; exact hv
          | some it0 =>
            have hn : ¬ now < it0.expireTime := by
              intro hlt
              unfold cacheLive at hclQ
              rw [hc] at hclQ
              simp [hlt] at hclQ
            simp only [liveData, hc] at hv
            rw [if_neg hn] at hv
            exact hv
        obtain ⟨it, hoQ, hlQ⟩ : ∃ it, jsGet sQ.oldCache id = some it ∧
            now < it.expireTime := by
          cases ho : jsGet sQ.oldCache id with
          | none => simp only [liveOldData, ho] at hloQ; exact absurd hloQ (by simp)
          | some it =>
            simp only [liveOldData, ho] at hloQ
            by_cases hl : now < it.expireTime
            · exact ⟨it, rfl, hl⟩
            · rw [if_neg hl] at hloQ; exact absurd hloQ (by simp)
        have hoP : jsGet sP.oldCache id = some it := by
          rcases hold id with heq | ⟨hpn, e, hq, hexp⟩
          · rw [heq, hoQ]
          · rw [hq, Option.some.injEq] at hoQ
            rw [hoQ] at hexp
            exact absurd hlQ (Nat.not_lt.mpr
              (Nat.le_of_lt (Nat.lt_of_lt_of_le hexp ht)))
        have hgdP := gen_disjoint_get sP now id p o hdP
        have hgdQ := gen_disjoint_get sQ now id p o hdQ
        rw [get_old_hit sP now id p o it hid hclP hoP hlQ] at hgdP ⊢
        rw [get_old_hit sQ now id p o it hid hclQ hoQ hlQ] at hgdQ ⊢
        refine ⟨rfl, hdef, hmP, hmQ, ?_, ?_, hgdP, hgdQ⟩
        · intro k
          by_cases hk : k = id
          · show jsGet (jsSet sP.cache id it) k = jsGet (jsSet sQ.cache id it) k ∨ _
            rw [hk, jsGet_set_self, jsGet_set_self]
            exact Or.inl rfl
          · show jsGet (jsSet sP.cache id it) k = jsGet (jsSet sQ.cache id it) k ∨
              (jsGet (jsSet sP.cache id it) k = none ∧ _)
            rw [jsGet_set_other _ _ _ _ hk, jsGet_set_other _ _ _ _ hk]
            exact mapRel_mono t now _ _ ht hcache k
        · intro k
          by_cases hk : k = id
          · show jsGet (jsDelete sP.oldCache id) k =
              jsGet (jsDelete sQ.oldCache id) k ∨ _
            rw [hk, jsGet_delete_self, jsGet_delete_self]
            exact Or.inl rfl
          · show jsGet (jsDelete sP.oldCache id) k =
              jsGet (jsDelete sQ.oldCache id) k ∨
              (jsGet (jsDelete sP.oldCache id) k = none ∧ _)
            rw [jsGet_delete_other _ _ _ hk, jsGet_delete_other _ _ _ hk]
            exact mapRel_mono t now _ _ ht hold k

theorem purge_rel (t now : Nat) (sP sQ : NeocacheState) (h : Rel t sP sQ)
    (ht : t ≤ now) : Rel now (purgeExpired sP now) sQ := by
  have hbody : ∀ (a : NeocacheState) (b : String), Rel now a sQ →
      Rel now (purgeStep now a b) sQ := by
    intro a b ha
    cases hc : jsGet a.cache b with
    | none =>
      have : purgeStep now a b = a := by simp only [purgeStep, hc]
      rw [this]
      exact ha
    | some item =>
      by_cases hlt : item.expireTime < now
      · have hps : purgeStep now a b = invalidate a b := by
          simp only [purgeStep, hc]
          rw [if_pos hlt]
        rw [hps]
        obtain ⟨hdef, hmP, hmQ, hcache, hold, hdP, hdQ⟩ := ha
        refine ⟨hdef, hmP, hmQ, ?_, ?_, gen_disjoint_invalidate _ _ hdP, hdQ⟩
        · intro k
          by_cases hk : k = b
          · show jsGet (jsDelete a.cache b) k = jsGet sQ.cache k ∨
              (jsGet (jsDelete a.cache b) k = none ∧ _)
            rw [hk, jsGet_delete_self]
            rcases hcache b with heq | ⟨hpn, e, hq, hexp⟩
            · exact Or.inr ⟨rfl, item, by rw [← heq, hc], hlt⟩
            · rw [hpn] at hc
              exact absurd hc (by simp)
          · show jsGet (jsDelete a.cache b) k = jsGet sQ.cache k ∨
              (jsGet (jsDelete a.cache b) k = none ∧ _)
            rw [jsGet_delete_other _ _ _ hk]
            exact hcache k
        · intro k
          by_cases hk : k = b
          · show jsGet (jsDelete a.oldCache b) k = jsGet sQ.oldCache k ∨
              (jsGet (jsDelete a.oldCache b) k = none ∧ _)
            rw [hk, jsGet_delete_self]
            have hao : jsGet a.oldCache b = none := by
              rcases hdP b with h1 | h1
              · rw [hc] at h1; exact absurd h1 (by simp)
              · exact h1
            rcases hold b with heq | ⟨hpn, e, hq, hexp⟩
            · exact Or.inl (by rw [← heq, hao])
            · exact Or.inr ⟨rfl, e, hq, hexp⟩
          · show jsGet (jsDelete a.oldCache b) k = jsGet sQ.oldCache k ∨
              (jsGet (jsDelete a.oldCache b) k = none ∧ _)
            rw [jsGet_delete_other _ _ _ hk]
            exact hold k
      · have : purgeStep now a b = a := by
          simp only [purgeStep, hc]
          rw [if_neg hlt]
        rw [this]
        exact ha
  have hfold := foldl_preserve (fun acc => Rel now acc sQ) (purgeStep now)
    hbody ((jsGet sP.timeToKeyBucket (now / sP.options.purgeIntervalMs)).getD [])
    sP (rel_mono t now _ _ ht h)
  exact hfold

theorem runOut_get_cons (s : NeocacheState) (now : Nat) (id : String) (p : Producer)
    (o : Option Nat) (tr : List Step) :
    (runOut s (.get now id p o :: tr)).2 =
      (get s now id p o).1 :: (runOut (get s now id p o).2 tr).2 := rfl

/-- C5 (amended): when `maxSize` is not configured (falsy in both runs, so no
generation rotation ever fires), every `get` of a time-monotone trace returns
the same value whether or not purge firings are interleaved: running the
trace with its purge steps on the purging engine and with them removed on the
other engine yields identical `get` outputs. -/
theorem purge_noninterference_no_maxSize :
    ∀ (tr : List Step) (t : Nat) (sP sQ : NeocacheState),
    Rel t sP sQ → monoFrom t tr = true →
    (runOut sP tr).2 = (runOut sQ (tr.filter (fun st => !(isPurge st)))).2 := by
  intro tr
  induction tr with
  | nil => intro t sP sQ _ _; rfl
  | cons st tr ih =>
    intro t sP sQ hrel hmono
    cases st with
    | get now id p o =>
      have hm : t ≤ now ∧ monoFrom now tr = true := by
        simp only [monoFrom, stepTime, Bool.and_eq_true, decide_eq_true_eq] at hmono
        exact hmono
      obtain ⟨hsim1, hsim2⟩ := sim_get t now sP sQ id p o hrel hm.1
      show (get sP now id p o).1 :: (runOut (get sP now id p o).2 tr).2 =
        (get sQ now id p o).1 ::
          (runOut (get sQ now id p o).2 (tr.filter (fun st => !(isPurge st)))).2
      rw [hsim1]
      exact congrArg _ (ih now _ _ hsim2 hm.2)
    | set now id v o =>
      have hm : t ≤ now ∧ monoFrom now tr = true := by
        simp only [monoFrom, stepTime, Bool.and_eq_true, decide_eq_true_eq] at hmono
        exact hmono
      show (runOut (set sP now id v o) tr).2 =
        (runOut (set sQ now id v o) (tr.filter (fun st => !(isPurge st)))).2
      exact ih now _ _ (sim_set t now sP sQ id v o hrel hm.1) hm.2
    | invalidate id =>
      have hm : monoFrom t tr = true := by
        simp only [monoFrom, stepTime] at hmono
        exact hmono
      show (runOut (invalidate sP id) tr).2 =
        (runOut (invalidate sQ id) (tr.filter (fun st => !(isPurge st)))).2
      exact ih t _ _ (sim_invalidate t sP sQ id hrel) hm
    | purge now =>
      have hm : t ≤ now ∧ monoFrom now tr = true := by
        simp only [monoFrom, stepTime, Bool.and_eq_true, decide_eq_true_eq] at hmono
        exact hmono
      show (runOut (purgeExpired sP now) tr).2 =
        (runOut sQ (tr.filter (fun st => !(isPurge st)))).2
      exact ih now _ _ (purge_rel t now sP sQ hrel hm.1) hm.2

/-- Witness for the amended C5: a concrete monotone trace with a purge firing
yields the same `get` outputs with and without the firing. -/
theorem purge_noninterference_no_maxSize_witness :
    (runOut (init exOptsW5) exTraceW5).2 =
      (runOut (init exOptsW5) (exTraceW5.filter (fun st => !(isPurge st)))).2 := by
  refine purge_noninterference_no_maxSize exTraceW5 0 _ _ ?_ (by decide)
  exact ⟨rfl, rfl, rfl, fun k => Or.inl rfl, fun k => Or.inl rfl,
    fun k => Or.inl rfl, fun k => Or.inl rfl⟩

theorem keyState_of_eq (s s' : NeocacheState) (k : String) (e : CacheItem) (hot : Bool)
    (hc : jsGet s'.cache k = jsGet s.cache k)
    (ho : jsGet s'.oldCache k = jsGet s.oldCache k)
    (h : keyState s k e hot) : keyState s' k e hot := by
  unfold keyState at h ⊢
  cases hot with
  | true =>
    rw [if_pos rfl] at h ⊢
    exact ⟨hc ▸ h.1, ho ▸ h.2⟩
  | false =>
    rw [if_neg (by simp)] at h ⊢
    rcases h with ⟨h1, h2⟩ | ⟨h1, h2⟩
    · exact Or.inl ⟨hc ▸ h1, ho ▸ h2⟩
    · exact Or.inr ⟨hc ▸ h1, ho ▸ h2⟩

theorem keyState_hot_of (s : NeocacheState) (k : String) (e : CacheItem)
    (h1 : jsGet s.cache k = some e) (h2 : jsGet s.oldCache k = none) (hot : Bool) :
    keyState s k e hot := by
  unfold keyState
  cases hot with
  | true => rw [if_pos rfl]; exact ⟨h1, h2⟩
  | false => rw [if_neg (by simp)]; exact Or.inl ⟨h1, h2⟩

theorem keyState_resident (s : NeocacheState) (k : String) (e : CacheItem) (hot : Bool)
    (h : keyState s k e hot) :
    (jsGet s.cache k = some e ∧ jsGet s.oldCache k = none) ∨
    (jsGet s.cache k = none ∧ jsGet s.oldCache k = some e) := by
  unfold keyState at h
  cases hot with
  | true => rw [if_pos rfl] at h; exact Or.inl h
  | false => rw [if_neg (by simp)] at h; exact h

theorem or_flag (b h : Bool) (hx : (!b || h) = true) (hb : b = true) : h = true := by
  rw [hb] at hx
  simpa using hx

theorem keyState_set (k : String) (e : CacheItem) (s : NeocacheState) (hot : Bool)
    (now : Nat) (id : String) (v : Nat) (o : Option Nat) (hidk : id ≠ k)
    (hks : keyState s k e hot)
    (hrot : stepRotates s (.set now id v o) = true → hot = true) :
    keyState (set s now id v o) k e
      (if stepRotates s (.set now id v o) then false else hot) := by
  have hkid : k ≠ id := fun hc => hidk hc.symm
  by_cases hid : id = ""
  · have hr : stepRotates s (.set now id v o) = false := by
      simp [stepRotates, hid]
    rw [hr]
    rw [if_neg (by simp)]
    rw [hid, set_empty]
    exact hks
  · rcases set_cases s now id v o hid with ⟨_, hr, hca, hol⟩ | ⟨hh, hr, hca, hol⟩ |
      ⟨_, hr, hca, hol⟩
    · rw [hr, if_neg (by simp)]
      refine keyState_of_eq s _ k e hot ?_ ?_ hks
      · rw [hca, jsGet_set_other _ _ _ _ hkid, jsGet_delete_other _ _ _ hkid]
      · rw [hol, jsGet_delete_other _ _ _ hkid]
    · have hhot := hrot hr
      rw [hr, if_pos rfl]
      subst hhot
      unfold keyState at hks
      rw [if_pos rfl] at hks
      unfold keyState
      rw [if_neg (by simp)]
      refine Or.inr ⟨?_, ?_⟩
      · rw [hca, jsGet_set_other _ _ _ _ hkid]
        rfl
      · rw [hol]
        exact hks.1
    · rw [hr, if_neg (by simp)]
      refine keyState_of_eq s _ k e hot ?_ ?_ hks
      · rw [hca, jsGet_set_other _ _ _ _ hkid]
      · rw [hol, jsGet_delete_other _ _ _ hkid]

theorem purge_keeps_key (s : NeocacheState) (now : Nat) (k : String) (e : CacheItem)
    (hlt : now < e.expireTime)
    (hsk : jsGet s.cache k = some e ∨ jsGet s.cache k = none) :
    jsGet (purgeExpired s now).cache k = jsGet s.cache k ∧
    jsGet (purgeExpired s now).oldCache k = jsGet s.oldCache k := by
  have hfold := foldl_preserve
    (fun acc => jsGet acc.cache k = jsGet s.cache k ∧
      jsGet acc.oldCache k = jsGet s.oldCache k)
    (purgeStep now) ?_ ((jsGet s.timeToKeyBucket
      (now / s.options.purgeIntervalMs)).getD []) s ⟨rfl, rfl⟩
  · exact hfold
  · intro a b ha
    cases hc : jsGet a.cache b with
    | none =>
      have : purgeStep now a b = a := by simp only [purgeStep, hc]
      rw [this]
      exact ha
    | some item =>
      by_cases hlt' : item.expireTime < now
      · have hps : purgeStep now a b = invalidate a b := by
          simp only [purgeStep, hc]
          rw [if_pos hlt']
        rw [hps]
        by_cases hbk : b = k
        · rw [hbk] at hc
          rw [ha.1] at hc
          rcases hsk with hsk | hsk
          · rw [hsk, Option.some.injEq] at hc
            rw [← hc] at hlt'
            exact absurd hlt' (Nat.not_lt.mpr (Nat.le_of_lt hlt))
          · rw [hsk] at hc
            exact absurd hc (by simp)
        · have hkb : k ≠ b := fun hcc => hbk hcc.symm
          exact ⟨by
              show jsGet (jsDelete a.cache b) k = _
              rw [jsGet_delete_other _ _ _ hkb, ha.1],
            by
              show jsGet (jsDelete a.oldCache b) k = _
              rw [jsGet_delete_other _ _ _ hkb, ha.2]⟩
      · have : purgeStep now a b = a := by
          simp only [purgeStep, hc]
          rw [if_neg hlt']
        rw [this]
        exact ha

theorem stepRotates_get_eq_set (s : NeocacheState) (now : Nat) (id : String)
    (v : Nat) (o : Option Nat) (hid : id ≠ "")
    (hld : liveData s now id = none) :
    stepRotates s (.get now id (.ok v) o) = stepRotates s (.set now id v o) := by
  simp [stepRotates, hid, hld]

theorem keyState_step (k : String) (e : CacheItem) (hk : k ≠ "") (s : NeocacheState)
    (hot : Bool) (st : Step) (hks : keyState s k e hot)
    (hOK : stepOKForKey k e s hot st = true) :
    keyState (applyStep s st) k e (nextHot k s hot st) := by
  cases st with
  | invalidate id =>
    have hidk : id ≠ k := by
      simp only [stepOKForKey, decide_eq_true_eq] at hOK
      exact hOK
    have hkid : k ≠ id := fun hc => hidk hc.symm
    have hnr : nextHot k s hot (.invalidate id) = hot := by
      simp [nextHot, stepRotates]
    rw [hnr]
    refine keyState_of_eq s _ k e hot ?_ ?_ hks
    · show jsGet (jsDelete s.cache id) k = _
      rw [jsGet_delete_other _ _ _ hkid]
    · show jsGet (jsDelete s.oldCache id) k = _
      rw [jsGet_delete_other _ _ _ hkid]
  | purge now =>
    have hlt : now < e.expireTime := by
      simp only [stepOKForKey, decide_eq_true_eq] at hOK
      exact hOK
    have hnr : nextHot k s hot (.purge now) = hot := by
      simp [nextHot, stepRotates]
    rw [hnr]
    have hsk : jsGet s.cache k = some e ∨ jsGet s.cache k = none := by
      rcases keyState_resident s k e hot hks with ⟨h1, _⟩ | ⟨h1, _⟩
      · exact Or.inl h1
      · exact Or.inr h1
    obtain ⟨h1, h2⟩ := purge_keeps_key s now k e hlt hsk
    exact keyState_of_eq s _ k e hot h1 h2 hks
  | set now id v o =>
    have hOK' : (id ≠ k ∧ now < e.expireTime) ∧
        (!(stepRotates s (.set now id 0 none)) || hot) = true := by
      simp only [stepOKForKey, Bool.and_eq_true, decide_eq_true_eq] at hOK
      exact ⟨⟨hOK.1.1, hOK.1.2⟩, hOK.2⟩
    have heq : stepRotates s (.set now id v o) =
        stepRotates s (.set now id 0 none) := rfl
    have hrot : stepRotates s (.set now id v o) = true → hot = true := by
      intro hr
      exact or_flag _ _ hOK'.2 (heq ▸ hr)
    have hnr : nextHot k s hot (.set now id v o) =
        (if stepRotates s (.set now id v o) then false else hot) := rfl
    rw [hnr]
    exact keyState_set k e s hot now id v o hOK'.1.1 hks hrot
  | get now id p o =>
    have hOK' : now < e.expireTime ∧
        (!(stepRotates s (.get now id p o)) || hot) = true := by
      simp only [stepOKForKey, Bool.and_eq_true, decide_eq_true_eq] at hOK
      exact hOK
    have hlt := hOK'.1
    by_cases hid : id = ""
    · have hidk : id ≠ k := fun hc => hk (hc ▸ hid)
      have hnr : nextHot k s hot (.get now id p o) = hot := by
        simp [nextHot, stepRotates, hid,
          (show ¬ ("" = k) from fun hc => hk hc.symm)]
      rw [hnr]
      show keyState (get s now id p o).2 k e hot
      rw [hid, get_empty]
      exact hks
    · by_cases hidk : id = k
      · subst hidk
        rcases keyState_resident s id e hot hks with ⟨h1, h2⟩ | ⟨h1, h2⟩
        · have hres := get_cache_hit s now id p o e hid h1 hlt
          have hnr : nextHot id s hot (.get now id p o) = true := by
            simp [nextHot]
          rw [hnr]
          show keyState (get s now id p o).2 id e true
          rw [hres]
          refine keyState_hot_of _ id e ?_ ?_ true
          · show jsGet (jsSet (jsDelete s.cache id) id e) id = some e
            rw [jsGet_set_self]
          · exact h2
        · have hcl : cacheLive s now id = false := by
            unfold cacheLive
            rw [h1]
          have hres := get_old_hit s now id p o e hid hcl h2 hlt
          have hnr : nextHot id s hot (.get now id p o) = true := by
            simp [nextHot]
          rw [hnr]
          show keyState (get s now id p o).2 id e true
          rw [hres]
          refine keyState_hot_of _ id e ?_ ?_ true
          · show jsGet (jsSet s.cache id e) id = some e
            rw [jsGet_set_self]
          · show jsGet (jsDelete s.oldCache id) id = none
            exact jsGet_delete_self ..
      · have hkid : k ≠ id := fun hc => hidk hc.symm
        cases hld : liveData s now id with
        | some d =>
          have hrots : stepRotates s (.get now id p o) = false := by
            simp [stepRotates, hld]
          have hnr : nextHot k s hot (.get now id p o) = hot := by
            simp [nextHot, hidk, hrots]
          rw [hnr]
          by_cases hcl : cacheLive s now id = true
          · obtain ⟨it, hcs, hl⟩ : ∃ it, jsGet s.cache id = some it ∧
                now < it.expireTime := by
              rw [cacheLive] at hcl
              cases hc : jsGet s.cache id with
              | none => rw [hc] at hcl; exact absurd hcl (by simp)
              | some it => rw [hc] at hcl; exact ⟨it, rfl, by simpa using hcl⟩
            have hres := get_cache_hit s now id p o it hid hcs hl
            show keyState (get s now id p o).2 k e hot
            rw [hres]
            refine keyState_of_eq s _ k e hot ?_ ?_ hks
            · show jsGet (jsSet (jsDelete s.cache id) id it) k = _
              rw [jsGet_set_other _ _ _ _ hkid, jsGet_delete_other _ _ _ hkid]
            · rfl
          · rw [Bool.not_eq_true] at hcl
            have hlo : liveOldData s now id = some d := by
              cases hc : jsGet s.cache id with
              | none => simp only [liveData, hc] at hld; exact hld
              | some it0 =>
                have hn : ¬ now < it0.expireTime := by
                  intro hx
                  unfold cacheLive at hcl
                  rw [hc] at hcl
                  simp [hx] at hcl
                simp only [liveData, hc] at hld
                rw [if_neg hn] at hld
                exact hld
            obtain ⟨it, hos, hl⟩ : ∃ it, jsGet s.oldCache id = some it ∧
                now < it.expireTime := by
              cases ho : jsGet s.oldCache id with
              | none => simp only [liveOldData, ho] at hlo; exact absurd hlo (by simp)
              | some it =>
                simp only [liveOldData, ho] at hlo
                by_cases hx : now < it.expireTime
                · exact ⟨it, rfl, hx⟩
                · rw [if_neg hx] at hlo; exact absurd hlo (by simp)
            have hres := get_old_hit s now id p o it hid hcl hos hl
            show keyState (get s now id p o).2 k e hot
            rw [hres]
            refine keyState_of_eq s _ k e hot ?_ ?_ hks
            · show jsGet (jsSet s.cache id it) k = _
              rw [jsGet_set_other _ _ _ _ hkid]
            · show jsGet (jsDelete s.oldCache id) k = _
              rw [jsGet_delete_other _ _ _ hkid]
        | none =>
          have hres := get_miss s now id p o hid hld
          cases p with
          | noFunc =>
            have hrots : stepRotates s (.get now id .noFunc o) = false := by
              simp [stepRotates]
            have hnr : nextHot k s hot (.get now id .noFunc o) = hot := by
              simp [nextHot, hidk, hrots]
            rw [hnr]
            show keyState (get s now id .noFunc o).2 k e hot
            rw [hres]
            exact hks
          | fail err =>
            have hrots : stepRotates s (.get now id (.fail err) o) = false := by
              simp [stepRotates]
            have hnr : nextHot k s hot (.get now id (.fail err) o) = hot := by
              simp [nextHot, hidk, hrots]
            rw [hnr]
            show keyState (get s now id (.fail err) o).2 k e hot
            rw [hres]
            exact hks
          | ok v =>
            have heq := stepRotates_get_eq_set s now id v o hid hld
            have hnr : nextHot k s hot (.get now id (.ok v) o) =
                (if stepRotates s (.set now id v o) then false else hot) := by
              simp only [nextHot, if_neg hidk, heq]
            rw [hnr]
            show keyState (get s now id (.ok v) o).2 k e _
            rw [hres]
            show keyState (set s now id v o) k e _
            refine keyState_set k e s hot now id v o hidk hks ?_
            intro hr
            refine or_flag _ _ hOK'.2 ?_
            rw [heq]
            exact hr

theorem keyState_run (k : String) (e : CacheItem) (hk : k ≠ "") :
    ∀ (tr : List Step) (s : NeocacheState) (hot : Bool),
    keyState s k e hot → keySafe k e s hot tr = true →
    ∃ hot', keyState (runTrace s tr) k e hot' := by
  intro tr
  induction tr with
  | nil =>
    intro s hot hks _
    exact ⟨hot, hks⟩
  | cons st tr ih =>
    intro s hot hks hsafe
    have hsafe' : stepOKForKey k e s hot st = true ∧
        keySafe k e (applyStep s st) (nextHot k s hot st) tr = true := by
      simpa only [keySafe, Bool.and_eq_true] using hsafe
    exact ih (applyStep s st) (nextHot k s hot st)
      (keyState_step k e hk s hot st hks hsafe'.1) hsafe'.2

/-- C4 (amended): with a `maxSize` configured, a key whose stored entry never
expires during the trace, which is never re-set or invalidated, and which is
read (as a hit) at least once between any two generation rotations — the
`keySafe` side condition: a rotating step may only fire while the key is
`hot` — is never evicted: at the end of any such trace a `get` of the key
still returns its value.  (Counting `N` distinct-key insertions instead of
rotations is refuted by the counterexample: promotions also grow the current
generation, so rotations can outpace insertions.) -/
theorem hit_between_rotations_keeps_resident (k : String) (e : CacheItem)
    (hk : k ≠ "") (s : NeocacheState) (hot : Bool) (tr : List Step)
    (hks : keyState s k e hot) (hsafe : keySafe k e s hot tr = true)
    (now' : Nat) (hlt : now' < e.expireTime) :
    (get (runTrace s tr) now' k .noFunc none).1 = .ok (some e.data) := by
  obtain ⟨hot', hfin⟩ := keyState_run k e hk tr s hot hks hsafe
  rcases keyState_resident _ k e hot' hfin with ⟨h1, _⟩ | ⟨h1, h2⟩
  · refine get_live_result _ now' k .noFunc none e.data hk ?_
    simp only [liveData, h1]
    rw [if_pos hlt]
  · refine get_live_result _ now' k .noFunc none e.data hk ?_
    simp only [liveData, h1, liveOldData, h2]
    rw [if_pos hlt]

/-- Witness for the amended C4 on a concrete safe trace containing a
rotation followed by a re-access of the tracked key. -/
theorem hit_between_rotations_keeps_resident_witness :
    keySafe "T" ⟨7, 3600000⟩ exState4a true exTrW4 = true ∧
    (get (runTrace exState4a exTrW4) 10 "T" .noFunc none).1 = .ok (some 7) := by
  refine ⟨by decide, ?_⟩
  exact hit_between_rotations_keeps_resident "T" ⟨7, 3600000⟩ (by decide)
    exState4a true exTrW4 (keyState_hot_of exState4a "T" ⟨7, 3600000⟩ rfl rfl true)
    (by decide) 10 (by decide)

end Neocache
